import Mathlib

/-!
Verification of the storage_stats core (src/core/scanner.py, src/core/analyzer.py,
src/utils/helpers.py) against its natural-language specification.

Shallow embedding conventions:
* Filesystem paths (Python strings manipulated with os.path.join / dirname /
  basename / commonpath) are component lists, `Path := List String`.
  os.path.join(d, name) is `d ++ [name]`, os.path.dirname is `List.dropLast`,
  os.path.basename is the last component, os.path.commonpath([p, e]) == e is
  `e.isPrefixOf p`.
* A directory tree is the inductive `FSTree`; regular files carry their byte
  content (a `List Nat`) and stat timestamps.  Symbolic links are outside the
  model: the claims under verification quantify over trees of regular files and
  directories only, so the scanner's islink branches are never taken.
* Python dicts are insertion-ordered association lists (`List (κ × β)`) with
  `dictInsert` / `dictLookup` / `dictAdjust` mirroring d[k] = v, d.get(k), and
  in-place mutation of d[k].
* Hashes: hashlib digests are modelled by the exact byte stream fed to the
  hasher (`hasher.update` calls concatenated).  Two files receive the same
  modelled hash iff the code feeds the same bytes to md5.
* The concurrent scan (two worker pools over two queues) is modelled by its
  sequential semantics: the directory queue is drained FIFO exactly as
  `_directory_worker`/`_process_directory` do, accumulating the file queue,
  which is then drained by `_process_file`.  Every mutation the workers perform
  under `self._mutex` (counter increments, dict inserts, error appends) commutes
  with the others, so the final aggregate state of a completed scan is the one
  computed here; the claims below are all about completed scans.
* Floating-point rendering (`human_readable_size`) and strftime formatting are
  impossible to embed exactly (IEEE doubles); analyzer definitions take the
  renderers as function parameters `hrs : Nat → String` / `fmtT : Int → String`.
  No verified statement depends on their output.
-/

namespace StorageStats

/-- A filesystem path as its list of components (os.path string semantics). -/
abbrev Path := List String

/-- Render a path the way the Python code would hold it as a string
(used only to build log / error message strings). -/
def pathStr (p : Path) : String := "/" ++ String.intercalate "/" p

/-- Stat data of one regular file: its content bytes and timestamps.
`st_size` is `content.length`. -/
structure FileMeta where
  content : List Nat
  mtime : Int
  atime : Int
  ctime : Int
deriving DecidableEq, Repr

/-- A directory tree: regular files and directories only (see header note on
symlinks).  A directory holds its `os.listdir` entries in listing order. -/
inductive FSTree where
  | file (meta : FileMeta)
  | dir (entries : List (String × FSTree))

/-- Python dict assignment d[k] = v on an insertion-ordered assoc list:
overwrites in place, otherwise appends at the end. -/
def dictInsert {κ β : Type} [DecidableEq κ] : List (κ × β) → κ → β → List (κ × β)
  | [], k, v => [(k, v)]
  | e :: rest, k, v => if e.1 = k then (k, v) :: rest else e :: dictInsert rest k v

/-- Python d.get(k) on an insertion-ordered assoc list. -/
def dictLookup {κ β : Type} [DecidableEq κ] : List (κ × β) → κ → Option β
  | [], _ => none
  | e :: rest, k => if e.1 = k then some e.2 else dictLookup rest k

/-- In-place mutation of the value at key k (Python d[k].field += ...);
no-op when the key is absent (the scanner only mutates keys it has inserted). -/
def dictAdjust {κ β : Type} [DecidableEq κ] : List (κ × β) → κ → (β → β) → List (κ × β)
  | [], _, _ => []
  | e :: rest, k, f => if e.1 = k then (k, f e.2) :: rest else e :: dictAdjust rest k f

/-- helpers.is_path_excluded: `os.path.commonpath([path, exclude]) == exclude`
holds exactly when `exclude` is a component prefix of `path`. -/
def is_path_excluded (path : Path) (exclude_paths : List Path) : Bool :=
  exclude_paths.any (fun e => e.isPrefixOf path)

/-- `str(file_size).encode()`: the decimal digits of the size as bytes. -/
def sizeBytes (n : Nat) : List Nat :=
  (toString n).toList.map Char.toNat

/-- helpers.get_file_hash, successful-read path.  The result is the byte
stream fed to the digest: in quick mode on a file with
`file_size > chunk_size * 2` the first chunk, then the last chunk
(`f.seek(-chunk_size, SEEK_END)` followed by a full chunk read), then
`str(file_size).encode()`; otherwise the whole file. -/
def get_file_hash (content : List Nat) (quick_mode : Bool) (chunk_size : Nat) : List Nat :=
  if quick_mode && decide (chunk_size * 2 < content.length) then
    content.take chunk_size
      ++ content.drop (content.length - chunk_size)
      ++ sizeBytes content.length
  else
    content

/-- helpers.get_file_hash including its `except Exception: return None` arm:
`read_ok = false` stands for any I/O error raised while opening/reading the
file (and for the ValueError raised when the file has vanished, which the
caller in `_process_file` catches to the same effect: no hash). -/
def get_file_hash_checked (read_ok : Bool) (content : List Nat)
    (quick_mode : Bool) (chunk_size : Nat) : Option (List Nat) :=
  if read_ok then some (get_file_hash content quick_mode chunk_size) else none

/-- The value stored per file in scan_results['files'] (FileInfo.to_dict). -/
structure FileEntry where
  size : Nat
  mtime : Int
  atime : Int
  ctime : Int
  hash : Option (List Nat)
deriving DecidableEq, Repr

/-- The value stored per directory in scan_results['dirs']. -/
structure DirEntry where
  size : Nat
  file_count : Nat
  dir_count : Nat
deriving DecidableEq, Repr

/-- The mutable aggregate state of a DiskScanner during a scan: the
scan_results 'files'/'dirs' dicts plus self.file_count / self.dir_count /
self.total_size / self.errors and the progress counters. -/
structure ScanState where
  files : List (Path × FileEntry)
  dirs : List (Path × DirEntry)
  file_count : Nat
  dir_count : Nat
  total_size : Nat
  errors : List String
  paths_to_process : Nat
  paths_processed : Nat
deriving DecidableEq, Repr

/-- The aggregate state right after scan() resets everything to zero. -/
def emptyScanState : ScanState :=
  { files := [], dirs := [], file_count := 0, dir_count := 0, total_size := 0
    errors := [], paths_to_process := 0, paths_processed := 0 }

/-- The per-scan configuration fields of DiskScanner.  `quick_hash` is
`hash_method == 'quick'`.  `max_threads` and `follow_symlinks` do not occur:
thread counts do not change the final aggregate state of a completed scan, and
the model has no symlinks. -/
structure Config where
  calculate_hashes : Bool
  quick_hash : Bool
  skip_hidden : Bool
  exclude_paths : List Path
deriving Repr

/-- What happened when a file worker statted / hashed one dequeued file path:
the stat succeeded (with `hash_read_ok = false` when a later I/O error made
get_file_hash return no hash), or raised PermissionError, FileNotFoundError,
or some other Exception. -/
inductive FileOutcome where
  | ok (meta : FileMeta) (hash_read_ok : Bool)
  | permissionDenied
  | notFound
  | failure (msg : String)

/-- What happened when a directory worker ran os.listdir on a dequeued
directory: a successful listing, PermissionError, or another Exception
(the scanner's generic except arm and the worker's own wrapper both append
an 'Error processing directory' entry). -/
inductive DirOutcome where
  | listed (entries : List (String × FSTree))
  | permissionDenied
  | failure (msg : String)

/-- The ancestor rollup at the end of _process_file:
walk from the file's parent upward while the ancestor is a recorded
directory, adding the file's size to each. -/
def updateAncestors (dirs : List (Path × DirEntry)) (parent : Path) (file_size : Nat) :
    List (Path × DirEntry) :=
  if h : parent ≠ [] ∧ (dictLookup dirs parent).isSome then
    updateAncestors
      (dictAdjust dirs parent (fun d => { d with size := d.size + file_size }))
      parent.dropLast file_size
  else dirs
termination_by parent.length
decreasing_by
  simp only [List.length_dropLast]
  have := List.length_pos.mpr h.1
  omega

/-- _process_file: stat the file, hash it when hashing is on and the file is
nonempty, insert the FileInfo dict, bump the counters, and roll the size up
through the recorded ancestors — or handle the three except arms.
A FileNotFoundError (file vanished between listing and stat) is only logged:
the state, including the errors list, is unchanged. -/
def processFile (cfg : Config) (file_path : Path) (outcome : FileOutcome)
    (st : ScanState) : ScanState :=
  match outcome with
  | .ok m read_ok =>
      let file_size := m.content.length
      let file_hash : Option (List Nat) :=
        if cfg.calculate_hashes && decide (0 < file_size) then
          get_file_hash_checked read_ok m.content cfg.quick_hash 8192
        else none
      { st with
          file_count := st.file_count + 1
          total_size := st.total_size + file_size
          files := dictInsert st.files file_path
            { size := file_size, mtime := m.mtime, atime := m.atime
              ctime := m.ctime, hash := file_hash }
          dirs := updateAncestors st.dirs file_path.dropLast file_size }
  | .permissionDenied =>
      { st with errors := st.errors ++ ["Permission denied: " ++ pathStr file_path] }
  | .notFound => st
  | .failure msg =>
      { st with errors :=
          st.errors ++ ["Error processing file " ++ pathStr file_path ++ ": " ++ msg] }

/-- os.path.basename(dir_path).startswith('.') -/
def basenameStartsDot (p : Path) : Bool :=
  (p.getLastD "").startsWith "."

/-- The per-item loop of _process_directory: classify each listed entry,
skipping excluded and (per configuration) hidden names, enqueueing
subdirectories on the directory queue and files on the file queue, and
bump the parent DirEntry counters.  Returns the new state and the two
batches of enqueued tasks in enqueue order. -/
def processItems (cfg : Config) (dir_path : Path) :
    List (String × FSTree) → ScanState →
    ScanState × List (Path × List (String × FSTree)) × List (Path × FileMeta)
  | [], st => (st, [], [])
  | (item_name, t) :: rest, st =>
      let item_path := dir_path ++ [item_name]
      if is_path_excluded item_path cfg.exclude_paths then
        processItems cfg dir_path rest st
      else if cfg.skip_hidden && item_name.startsWith "." then
        processItems cfg dir_path rest st
      else
        match t with
        | .dir sub_entries =>
            let st' := { st with
              paths_to_process := st.paths_to_process + 1
              dirs := dictAdjust st.dirs dir_path
                        (fun d => { d with dir_count := d.dir_count + 1 }) }
            let r := processItems cfg dir_path rest st'
            (r.1, (item_path, sub_entries) :: r.2.1, r.2.2)
        | .file m =>
            let st' := { st with
              dirs := dictAdjust st.dirs dir_path
                        (fun d => { d with file_count := d.file_count + 1 }) }
            let r := processItems cfg dir_path rest st'
            (r.1, r.2.1, (item_path, m) :: r.2.2)

/-- _process_directory: skip excluded / hidden directories outright, else
record the DirEntry, bump dir_count, and list the children (or handle the
except arms, which fire after the DirEntry was inserted). -/
def processDirectory (cfg : Config) (dir_path : Path) (outcome : DirOutcome)
    (st : ScanState) :
    ScanState × List (Path × List (String × FSTree)) × List (Path × FileMeta) :=
  if is_path_excluded dir_path cfg.exclude_paths then (st, [], [])
  else if cfg.skip_hidden && basenameStartsDot dir_path then (st, [], [])
  else
    let st := { st with
      dir_count := st.dir_count + 1
      dirs := dictInsert st.dirs dir_path { size := 0, file_count := 0, dir_count := 0 } }
    match outcome with
    | .listed entries => processItems cfg dir_path entries st
    | .permissionDenied =>
        ({ st with errors := st.errors ++ ["Permission denied: " ++ pathStr dir_path] },
         [], [])
    | .failure msg =>
        ({ st with errors :=
            st.errors ++ ["Error processing directory " ++ pathStr dir_path ++ ": " ++ msg] },
         [], [])

mutual

/-- Node count of a tree, the termination measure for queue draining. -/
def FSTree.weight : FSTree → Nat
  | .file _ => 1
  | .dir entries => 1 + entriesWeight entries

/-- Total weight of a listing. -/
def entriesWeight : List (String × FSTree) → Nat
  | [] => 0
  | e :: rest => e.2.weight + entriesWeight rest

end

/-- Weight of the pending directory queue. -/
def queueWeight (q : List (Path × List (String × FSTree))) : Nat :=
  (q.map (fun task => 1 + entriesWeight task.2)).sum

/-- The directory workers plus _scan_queue.join(): FIFO-drain the directory
queue to exhaustion, appending newly discovered directories to the back of
the directory queue and discovered files to the file queue, counting each
dequeued directory in paths_processed (error-free run: every listing
succeeds). -/
def drainDirs (cfg : Config) :
    List (Path × List (String × FSTree)) → List (Path × FileMeta) → ScanState →
    ScanState × List (Path × FileMeta)
  | [], file_queue, st => (st, file_queue)
  | (dir_path, entries) :: rest, file_queue, st =>
      let r := processDirectory cfg dir_path (.listed entries) st
      drainDirs cfg (rest ++ r.2.1) (file_queue ++ r.2.2)
        { r.1 with paths_processed := r.1.paths_processed + 1 }
termination_by q _ _ => queueWeight q
decreasing_by
  have key : ∀ (q : Path) (es : List (String × FSTree)) (st : ScanState),
      queueWeight (processItems cfg q es st).2.1 ≤ entriesWeight es := by
    intro q es
    induction es with
    | nil => intro st; simp [processItems, queueWeight]
    | cons e rest ih =>
        intro st
        obtain ⟨name, t⟩ := e
        simp only [processItems]
        split
        · have := ih st
          simp only [entriesWeight]
          omega
        · split
          · have := ih st
            simp only [entriesWeight]
            omega
          · cases t with
            | dir sub_entries =>
                simp only [queueWeight, List.map_cons, List.sum_cons]
                have := ih { st with
                  paths_to_process := st.paths_to_process + 1
                  dirs := dictAdjust st.dirs q
                            (fun d => { d with dir_count := d.dir_count + 1 }) }
                simp only [queueWeight] at this
                simp only [entriesWeight, FSTree.weight]
                omega
            | file m =>
                have := ih { st with
                  dirs := dictAdjust st.dirs q
                            (fun d => { d with file_count := d.file_count + 1 }) }
                simp only [entriesWeight, FSTree.weight]
                omega
  have hout : ∀ st, queueWeight (processDirectory cfg dir_path (.listed entries) st).2.1
      ≤ entriesWeight entries := by
    intro st
    simp only [processDirectory]
    split
    · simp [queueWeight]
    · split
      · simp [queueWeight]
      · exact key dir_path entries _
  have h1 := hout st
  simp only [queueWeight, List.map_append, List.sum_append, List.map_cons, List.sum_cons]
  simp only [queueWeight] at h1
  omega

/-- The file workers plus _file_queue.join(): drain the accumulated file
queue (error-free run: every stat and hash read succeeds). -/
def drainFiles (cfg : Config) : List (Path × FileMeta) → ScanState → ScanState
  | [], st => st
  | (file_path, m) :: rest, st =>
      drainFiles cfg rest (processFile cfg file_path (.ok m true) st)

/-- _scan_directory for an error-free run: seed the directory queue with the
root (bumping paths_to_process as _add_directory_to_queue does), drain the
directory queue, then drain the file queue. -/
def scanDirectory (cfg : Config) (root_path : Path) (entries : List (String × FSTree))
    (st : ScanState) : ScanState :=
  let st0 := { st with paths_to_process := st.paths_to_process + 1 }
  let r := drainDirs cfg [(root_path, entries)] [] st0
  drainFiles cfg r.2 r.1

/-- The scan_results dict as _finalize_scan_results leaves it (scan_time, a
float duration, is omitted from the model). -/
structure ScanResults where
  root_path : Path
  files : List (Path × FileEntry)
  dirs : List (Path × DirEntry)
  total_size : Nat
  total_files : Nat
  total_dirs : Nat
  errors : List String
deriving DecidableEq, Repr

/-- _finalize_scan_results: copy the final counters into the results dict. -/
def finalizeScanResults (root_path : Path) (st : ScanState) : ScanResults :=
  { root_path := root_path
    files := st.files
    dirs := st.dirs
    total_size := st.total_size
    total_files := st.file_count
    total_dirs := st.dir_count
    errors := st.errors }

/-- The signals DiskScanner emits on the paths modelled here (scan_progress
events, emitted per processed directory, carry no result data and are not
modelled). -/
inductive ScanEvent where
  | scanError (msg : String)
  | scanFinished (results : ScanResults)
deriving DecidableEq, Repr

/-- What os.path.exists / os.path.isdir report about the requested root. -/
inductive RootStat where
  | missing
  | nonDirectory
  | directory (entries : List (String × FSTree))

/-- The DiskScanner object state relevant to scan lifecycle. -/
structure Scanner where
  config : Config
  running : Bool
  stop_requested : Bool
  root_path : Path
  st : ScanState
  results : Option ScanResults
deriving Repr

/-- A freshly constructed DiskScanner (scan_results is the initial empty
dict, modelled as none). -/
def initScanner (cfg : Config) : Scanner :=
  { config := cfg, running := false, stop_requested := false, root_path := []
    st := emptyScanState, results := none }

/-- DiskScanner.scan, blocking variant (the non-blocking variant runs the
same _scan_directory / _finalize_scan_results on a thread and only differs
in returning None early): refuse while running (warning log, nothing else),
refuse a missing or non-directory root (scan_error event, state untouched),
otherwise reset the aggregates, run the scan to completion, finalize, and
emit scan_finished with the full results.  Returns the scanner state, the
return value, the emitted events, and the log messages.  Note `running` is
set to true at the start of a scan and nowhere reset on the success path. -/
def DiskScanner.scan (s : Scanner) (path : Path) (stat : RootStat) :
    Scanner × Option ScanResults × List ScanEvent × List String :=
  if s.running then
    (s, none, [], ["Scan already in progress"])
  else
    match stat with
    | .missing =>
        (s, none, [.scanError ("Path does not exist: " ++ pathStr path)],
         ["Path does not exist: " ++ pathStr path])
    | .nonDirectory =>
        (s, none, [.scanError ("Path is not a directory: " ++ pathStr path)],
         ["Path is not a directory: " ++ pathStr path])
    | .directory entries =>
        let final := scanDirectory s.config path entries emptyScanState
        let res := finalizeScanResults path final
        ({ s with
            stop_requested := false
            running := true
            root_path := path
            st := final
            results := some res },
         some res, [.scanFinished res], [])

/-- The checkpoint cache: the path_map.json index (root path to cache file
name) plus the set of scan_<hash>.pickle files on disk. -/
structure CheckpointStore where
  path_map : List (Path × String)
  cache_files : List String
deriving DecidableEq, Repr

/-- Python del d[k] on the assoc-list dict. -/
def dictRemove {κ β : Type} [DecidableEq κ] : List (κ × β) → κ → List (κ × β)
  | [], _ => []
  | e :: rest, k => if e.1 = k then rest else e :: dictRemove rest k

/-- _clear_partial_scan: when the index has an entry for this root, delete the
cache file and the index entry; otherwise do nothing. -/
def clearCheckpoint (path : Path) (cs : CheckpointStore) : CheckpointStore :=
  match dictLookup cs.path_map path with
  | none => cs
  | some cache_file =>
      { path_map := dictRemove cs.path_map path
        cache_files := cs.cache_files.filter (fun f => f != cache_file) }

/-- DiskScanner.scan together with the checkpoint cache it could touch.
Neither scan, _scan_directory, _finalize_scan_results nor any function they
reach contains a call to _save_partial_scan or _clear_partial_scan (those two
methods have no caller anywhere in the repository), so the store passes
through a scan unchanged. -/
def DiskScanner.scanWithCheckpoints (s : Scanner) (path : Path) (stat : RootStat)
    (cs : CheckpointStore) :
    (Scanner × Option ScanResults × List ScanEvent × List String) × CheckpointStore :=
  (DiskScanner.scan s path stat, cs)

/-- The suffix of a character list starting at its last '.', or [] if it has
no dot. -/
def extFrom : List Char → List Char
  | [] => []
  | c :: rest =>
      let e := extFrom rest
      if e.isEmpty then (if c = '.' then c :: rest else []) else e

/-- os.path.splitext(...)[1] applied to a file name: the suffix from the last
dot, except that a dot inside the leading run of dots (hidden-file dots) does
not count. -/
def splitextExt (name : String) : String :=
  String.mk (extFrom (name.toList.dropWhile (fun c => c = '.')))

/-- `os.path.splitext(file_path)[1].lower()`: only dots in the last component
count, which is exactly the last component of the component-list path. -/
def pathExt (p : Path) : String :=
  (splitextExt (p.getLastD "")).toLower

/-- os.path.basename. -/
def pathBasename (p : Path) : String := p.getLastD ""

/-- Python defaultdict(list) `d[k].append(a)`: append to the group, creating
it at the back of the dict on first occurrence of the key. -/
def groupInsert {κ α : Type} [DecidableEq κ] : List (κ × List α) → κ → α → List (κ × List α)
  | [], k, a => [(k, [a])]
  | e :: rest, k, a => if e.1 = k then (k, e.2 ++ [a]) :: rest else e :: groupInsert rest k a

/-- One pass of grouping a list into a defaultdict(list) keyed by `key`,
skipping elements on which `key` is none. -/
def groupAll {κ α : Type} [DecidableEq κ] (key : α → Option κ) (l : List α) :
    List (κ × List α) :=
  l.foldl
    (fun m a =>
      match key a with
      | some k => groupInsert m k a
      | none => m)
    []

/-- Python defaultdict(dflt) `d[k] = f(d[k])`. -/
def dictUpsert {κ β : Type} [DecidableEq κ] (dflt : β) :
    List (κ × β) → κ → (β → β) → List (κ × β)
  | [], k, f => [(k, f dflt)]
  | e :: rest, k, f => if e.1 = k then (k, f e.2) :: rest else e :: dictUpsert dflt rest k f

/-- The size-phase grouping key in _find_duplicate_files: files of size 0 are
skipped. -/
def sizeKey (e : Path × FileEntry) : Option Nat :=
  if 0 < e.2.size then some e.2.size else none

/-- The hash-phase grouping key in _find_duplicate_files: `if file_hash:` —
a missing hash (None) and a falsy empty hash are both skipped. -/
def hashKey (e : Path × FileEntry) : Option (List Nat) :=
  match e.2.hash with
  | some h => if h.isEmpty then none else some h
  | none => none

/-- One member record inside a duplicate group. -/
structure DupFileRef where
  path : Path
  mtime : Int
  mtime_str : String
  atime : Int
deriving DecidableEq, Repr

/-- One duplicate group as stored in self.duplicate_files. -/
structure DupGroup where
  size : Nat
  count : Nat
  wasted_space : Nat
  files : List DupFileRef
deriving DecidableEq, Repr

/-- The dict built for one hash group with more than one file:
size is duplicate_files[0][1]['size'], wasted_space = size * (count - 1). -/
def mkDupGroup (fmtT : Int → String) (dups : List (Path × FileEntry)) : DupGroup :=
  let first_size := match dups with | [] => 0 | d :: _ => d.2.size
  { size := first_size
    count := dups.length
    wasted_space := first_size * (dups.length - 1)
    files := dups.map (fun d =>
      { path := d.1, mtime := d.2.mtime, mtime_str := fmtT d.2.mtime, atime := d.2.atime }) }

/-- _find_duplicate_files: group by size (skipping empty files), skip size
buckets with fewer than two files, group each bucket by hash (skipping files
with a falsy hash), and store every hash group with more than one file in the
duplicate_files dict keyed by the hash. -/
def findDuplicateFiles (fmtT : Int → String) (r : ScanResults) :
    List (List Nat × DupGroup) :=
  let size_groups := groupAll sizeKey r.files
  size_groups.foldl
    (fun acc sg =>
      if sg.2.length < 2 then acc
      else
        (groupAll hashKey sg.2).foldl
          (fun acc2 hg =>
            if 1 < hg.2.length then dictInsert acc2 hg.1 (mkDupGroup fmtT hg.2) else acc2)
          acc)
    []

/-- Stable insertion into a list sorted by the Bool comparator `le`:
the new element goes in front of the first element it compares `le` to,
so an earlier list element precedes later elements that compare equal. -/
def orderedInsertB {α : Type} (le : α → α → Bool) (a : α) : List α → List α
  | [] => [a]
  | b :: l => if le a b then a :: b :: l else b :: orderedInsertB le a l

/-- Stable sort by the Bool comparator `le` (the unique stable sort, hence
the semantics of Python list.sort with the corresponding key/reverse). -/
def insertionSortB {α : Type} (le : α → α → Bool) : List α → List α
  | [] => []
  | a :: l => orderedInsertB le a (insertionSortB le l)

/-- One row of self.largest_files. -/
structure LargeFileEntry where
  path : Path
  size : Nat
  size_human : String
  ext : String
  filename : String
deriving DecidableEq, Repr

/-- _find_largest_files: sort (path, size) pairs descending by size (Python
stable sort with reverse=True), truncate to `limit` (the caller passes the
default 100), and format. -/
def findLargestFiles (hrs : Nat → String) (r : ScanResults) (limit : Nat) :
    List LargeFileEntry :=
  let files_with_size := r.files.map (fun e => (e.1, e.2.size))
  let sorted := insertionSortB (fun a b => decide (b.2 ≤ a.2)) files_with_size
  (sorted.take limit).map (fun e =>
    { path := e.1, size := e.2, size_human := hrs e.2
      ext := pathExt e.1, filename := pathBasename e.1 })

/-- One row of self.largest_dirs. -/
structure LargeDirEntry where
  path : Path
  size : Nat
  size_human : String
  file_count : Nat
  dir_count : Nat
deriving DecidableEq, Repr

/-- _find_largest_dirs, same shape as _find_largest_files. -/
def findLargestDirs (hrs : Nat → String) (r : ScanResults) (limit : Nat) :
    List LargeDirEntry :=
  let dirs_with_size := r.dirs.map (fun e => (e.1, e.2.size))
  let sorted := insertionSortB (fun a b => decide (b.2 ≤ a.2)) dirs_with_size
  (sorted.take limit).map (fun e =>
    { path := e.1, size := e.2, size_human := hrs e.2
      file_count := match dictLookup r.dirs e.1 with | some d => d.file_count | none => 0
      dir_count := match dictLookup r.dirs e.1 with | some d => d.dir_count | none => 0 })

/-- helpers.get_file_age_category at analysis time `now`: the float division
by 86400 compared against integer day bounds is the same predicate as these
integer comparisons on second timestamps. -/
def get_file_age_category (now mtime : Int) : String :=
  let diff := now - mtime
  if diff < 7 * 86400 then "Last week"
  else if diff < 30 * 86400 then "Last month"
  else if diff < 90 * 86400 then "Last quarter"
  else if diff < 365 * 86400 then "Last year"
  else if diff < 730 * 86400 then "1-2 years"
  else "Older than 2 years"

/-- One bucket of the age distribution (size_human is attached after the
counting loop). -/
structure AgeBucket where
  count : Nat
  size : Nat
  size_human : String
deriving DecidableEq, Repr

/-- One row of self.oldest_files / self.newest_files. -/
structure AgedFileEntry where
  path : Path
  mtime : Int
  mtime_str : String
  size : Nat
  size_human : String
  filename : String
deriving DecidableEq, Repr

/-- Formatting step shared by the oldest/newest lists. -/
def mkAgedEntry (hrs : Nat → String) (fmtT : Int → String) (x : Path × Int × Nat) :
    AgedFileEntry :=
  { path := x.1, mtime := x.2.1, mtime_str := fmtT x.2.1
    size := x.2.2, size_human := hrs x.2.2, filename := pathBasename x.1 }

/-- _analyze_file_age: one pass over the files collects (path, mtime, size)
triples and counts the age distribution, skipping files with mtime <= 0;
then sort ascending by mtime for the 100 oldest and re-sort the same list
descending for the 100 newest.  Returns (distribution, oldest, newest). -/
def analyzeFileAge (hrs : Nat → String) (fmtT : Int → String) (now : Int)
    (r : ScanResults) :
    List (String × AgeBucket) × List AgedFileEntry × List AgedFileEntry :=
  let init : List (String × AgeBucket) :=
    [("Last week", ⟨0, 0, ""⟩), ("Last month", ⟨0, 0, ""⟩),
     ("Last quarter", ⟨0, 0, ""⟩), ("Last year", ⟨0, 0, ""⟩),
     ("1-2 years", ⟨0, 0, ""⟩), ("Older than 2 years", ⟨0, 0, ""⟩)]
  let z := r.files.foldl
    (fun (acc : List (Path × Int × Nat) × List (String × AgeBucket)) e =>
      if e.2.mtime ≤ 0 then acc
      else
        (acc.1 ++ [(e.1, e.2.mtime, e.2.size)],
         dictAdjust acc.2 (get_file_age_category now e.2.mtime)
           (fun b => { b with count := b.count + 1, size := b.size + e.2.size })))
    ([], init)
  let dist := z.2.map (fun kb => (kb.1, { kb.2 with size_human := hrs kb.2.size }))
  let asc := insertionSortB (fun a b => decide (a.2.1 ≤ b.2.1)) z.1
  let oldest := (asc.take 100).map (mkAgedEntry hrs fmtT)
  let desc := insertionSortB (fun a b => decide (b.2.1 ≤ a.2.1)) asc
  let newest := (desc.take 100).map (mkAgedEntry hrs fmtT)
  (dist, oldest, newest)

/-- _find_empty_dirs: directories with zero immediate files and zero
immediate subdirectories, in dict order. -/
def findEmptyDirs (r : ScanResults) : List Path :=
  (r.dirs.filter (fun e => e.2.file_count == 0 && e.2.dir_count == 0)).map Prod.fst

/-- One bucket of the file-type histogram.  `percentage` is the exact value
of the Python float expression (size / total) * 100. -/
structure TypeInfo where
  count : Nat
  size : Nat
  size_human : String
  percentage : Rat
deriving DecidableEq, Repr

/-- _analyze_file_types: count and sum sizes per lowercased extension
(no-extension files bucket as "[No Extension]"), then attach human sizes and
percentages of the grand total. -/
def analyzeFileTypes (hrs : Nat → String) (r : ScanResults) : List (String × TypeInfo) :=
  let total_size := r.total_size
  let counted := r.files.foldl
    (fun m e =>
      let ext0 := pathExt e.1
      let ext := if ext0 = "" then "[No Extension]" else ext0
      dictUpsert ({ count := 0, size := 0, size_human := "", percentage := 0 } : TypeInfo) m ext
        (fun ti => { ti with count := ti.count + 1, size := ti.size + e.2.size }))
    []
  counted.map (fun kv =>
    (kv.1,
     { kv.2 with
         size_human := hrs kv.2.size
         percentage :=
           if 0 < total_size then ((kv.2.size : Rat) / (total_size : Rat)) * 100 else 0 }))

/-- The DataAnalyzer object: the scan results it was given plus every
analysis field computed from them. -/
structure AnalyzerState where
  scan_results : Option ScanResults
  duplicate_files : List (List Nat × DupGroup)
  file_types : List (String × TypeInfo)
  largest_files : List LargeFileEntry
  largest_dirs : List LargeDirEntry
  oldest_files : List AgedFileEntry
  newest_files : List AgedFileEntry
  empty_dirs : List Path
  file_age_distribution : List (String × AgeBucket)
deriving Repr

/-- A freshly constructed DataAnalyzer. -/
def initAnalyzer : AnalyzerState :=
  { scan_results := none, duplicate_files := [], file_types := [], largest_files := []
    largest_dirs := [], oldest_files := [], newest_files := [], empty_dirs := []
    file_age_distribution := [] }

/-- _analyze_data: recompute every analysis field from self.scan_results
(no-op when there are none).  `hrs` / `fmtT` are the unmodelled float/strftime
renderers; `now` is time.time() at analysis time. -/
def analyzeData (hrs : Nat → String) (fmtT : Int → String) (now : Int)
    (a : AnalyzerState) : AnalyzerState :=
  match a.scan_results with
  | none => a
  | some r =>
      let age := analyzeFileAge hrs fmtT now r
      { a with
          file_types := analyzeFileTypes hrs r
          duplicate_files := findDuplicateFiles fmtT r
          largest_files := findLargestFiles hrs r 100
          largest_dirs := findLargestDirs hrs r 100
          oldest_files := age.2.1
          newest_files := age.2.2
          file_age_distribution := age.1
          empty_dirs := findEmptyDirs r }

/-- DataAnalyzer.set_scan_results: store the new scan results, reset every
analysis field, and (when results are present — None and the empty dict are
both falsy) run _analyze_data.  Every mutable field of the analyzer is
assigned here, which is what makes analysis independent of prior state. -/
def setScanResults (hrs : Nat → String) (fmtT : Int → String) (now : Int)
    (_a : AnalyzerState) (r : Option ScanResults) : AnalyzerState :=
  let reset : AnalyzerState :=
    { scan_results := r
      duplicate_files := []
      file_types := []
      largest_files := []
      largest_dirs := []
      oldest_files := []
      newest_files := []
      empty_dirs := []
      file_age_distribution := [] }
  match r with
  | some _ => analyzeData hrs fmtT now reset
  | none => reset

/-- DataAnalyzer.get_largest_files: a slice of the precomputed (100-capped)
largest_files list. -/
def getLargestFiles (a : AnalyzerState) (limit : Nat) : List LargeFileEntry :=
  a.largest_files.take limit

/-- DataAnalyzer.get_duplicate_files. -/
def getDuplicateFiles (a : AnalyzerState) : List (List Nat × DupGroup) :=
  a.duplicate_files

/-- All regular files below a directory with listing `entries` mounted at
path `p`, with their full paths, in depth-first listing order. -/
def treeFilesEntries : Path → List (String × FSTree) → List (Path × FileMeta)
  | _, [] => []
  | p, (n, .file m) :: rest => (p ++ [n], m) :: treeFilesEntries p rest
  | p, (n, .dir es) :: rest => treeFilesEntries (p ++ [n]) es ++ treeFilesEntries p rest
termination_by _ l => entriesWeight l
decreasing_by
  all_goals simp only [entriesWeight, FSTree.weight]
  all_goals omega

mutual

/-- Well-formedness of a tree: every directory lists pairwise distinct names
(a real directory listing cannot repeat a name). -/
def FSTree.wfB : FSTree → Bool
  | .file _ => true
  | .dir es => entriesWfB es

/-- Well-formedness of a listing. -/
def entriesWfB : List (String × FSTree) → Bool
  | [] => true
  | (n, t) :: rest => !(rest.any (fun e => e.1 == n)) && FSTree.wfB t && entriesWfB rest

end

/-- Sum of the on-disk sizes of a file list. -/
def filesTotalSize (l : List (Path × FileMeta)) : Nat :=
  (l.map (fun e => e.2.content.length)).sum

/-- Sum of the size fields over the entries of a results files dict. -/
def resultsFilesSize (l : List (Path × FileEntry)) : Nat :=
  (l.map (fun e => e.2.size)).sum

/-- All files below the directories still pending on a directory queue. -/
def queueFiles : List (Path × List (String × FSTree)) → List (Path × FileMeta)
  | [] => []
  | t :: rest => treeFilesEntries t.1 t.2 ++ queueFiles rest

/-- The FileInfo dict _process_file builds for a successfully statted and
(when enabled) successfully hashed file. -/
def scannedFileEntry (cfg : Config) (t : Path × FileMeta) : FileEntry :=
  { size := t.2.content.length
    mtime := t.2.mtime
    atime := t.2.atime
    ctime := t.2.ctime
    hash :=
      if cfg.calculate_hashes && decide (0 < t.2.content.length) then
        some (get_file_hash t.2.content cfg.quick_hash 8192)
      else none }

/-! ## Theorems

Association-list dict lemmas shared across the claims. -/

theorem dictLookup_dictInsert_self {κ β : Type} [DecidableEq κ]
    (m : List (κ × β)) (k : κ) (v : β) :
    dictLookup (dictInsert m k v) k = some v := by
  induction m with
  | nil => simp [dictInsert, dictLookup]
  | cons e rest ih =>
      by_cases h : e.1 = k
      · simp [dictInsert, h, dictLookup]
      · simp [dictInsert, h, dictLookup, ih]

theorem dictLookup_dictInsert_ne {κ β : Type} [DecidableEq κ]
    (m : List (κ × β)) (k q : κ) (v : β) (h : q ≠ k) :
    dictLookup (dictInsert m k v) q = dictLookup m q := by
  have hk : ¬ k = q := fun he => h he.symm
  induction m with
  | nil => simp [dictInsert, dictLookup, hk]
  | cons e rest ih =>
      by_cases he : e.1 = k
      · subst he
        have hq : ¬ e.1 = q := hk
        simp [dictInsert, dictLookup, hq]
      · simp [dictInsert, he, dictLookup, ih]

theorem dictLookup_dictAdjust {κ β : Type} [DecidableEq κ]
    (m : List (κ × β)) (k q : κ) (f : β → β) :
    dictLookup (dictAdjust m k f) q =
      if q = k then (dictLookup m q).map f else dictLookup m q := by
  induction m with
  | nil => simp [dictAdjust, dictLookup]
  | cons e rest ih =>
      by_cases he : e.1 = k
      · subst he
        by_cases hq : e.1 = q
        · subst hq
          simp [dictAdjust, dictLookup]
        · have hq' : ¬ q = e.1 := fun hx => hq hx.symm
          simp [dictAdjust, dictLookup, hq, hq']
      · by_cases hq : e.1 = q
        · subst hq
          have hk : ¬ e.1 = k := he
          simp [dictAdjust, he, dictLookup, hk]
        · simp [dictAdjust, he, dictLookup, hq, ih]

theorem dictInsert_append_of_lookup_none {κ β : Type} [DecidableEq κ]
    (m : List (κ × β)) (k : κ) (v : β) (h : dictLookup m k = none) :
    dictInsert m k v = m ++ [(k, v)] := by
  induction m with
  | nil => simp [dictInsert]
  | cons e rest ih =>
      by_cases he : e.1 = k
      · simp [dictLookup, he] at h
      · simp only [dictLookup, he, if_false, if_neg he] at h ⊢
        simp [dictInsert, he, ih h]

/-! ### C7 — quick hashing -/

/-- C7: in Quick mode get_file_hash digests first chunk, last chunk and the
size bytes only when `file_size > 2 * chunk_size`, and the whole file
otherwise; the scanner leaves zero-byte files unhashed, and a failed hash
read leaves the record hashless without aborting the file's processing. -/
theorem quick_hash_spec :
    (∀ (content : List Nat) (chunk_size : Nat), chunk_size * 2 < content.length →
        get_file_hash content true chunk_size =
          content.take chunk_size ++ content.drop (content.length - chunk_size)
            ++ sizeBytes content.length) ∧
    (∀ (content : List Nat) (chunk_size : Nat), content.length ≤ chunk_size * 2 →
        get_file_hash content true chunk_size = content) ∧
    (∀ (cfg : Config) (p : Path) (m : FileMeta) (st : ScanState), m.content = [] →
        dictLookup (processFile cfg p (.ok m true) st).files p =
          some { size := 0, mtime := m.mtime, atime := m.atime, ctime := m.ctime
                 hash := none }) ∧
    (∀ (cfg : Config) (p : Path) (m : FileMeta) (st : ScanState),
        dictLookup (processFile cfg p (.ok m false) st).files p =
          some { size := m.content.length, mtime := m.mtime, atime := m.atime
                 ctime := m.ctime, hash := none } ∧
        (processFile cfg p (.ok m false) st).file_count = st.file_count + 1 ∧
        (processFile cfg p (.ok m false) st).errors = st.errors) := by
  refine ⟨?_, ?_, ?_, ?_⟩
  · intro content chunk_size h
    simp [get_file_hash, h]
  · intro content chunk_size h
    simp [get_file_hash, Nat.not_lt.mpr h]
  · intro cfg p m st h
    simp [processFile, h, dictLookup_dictInsert_self]
  · intro cfg p m st
    refine ⟨?_, rfl, rfl⟩
    simp [processFile, get_file_hash_checked, dictLookup_dictInsert_self]

/-- Witness for C7 at concrete inputs. -/
theorem quick_hash_spec_witness :
    (2 * 2 < 5 ∧
      get_file_hash [1, 2, 3, 4, 5] true 2 = [1, 2] ++ [4, 5] ++ sizeBytes 5) ∧
    ((4 : Nat) ≤ 2 * 2 ∧ get_file_hash [9, 9, 9, 9] true 2 = [9, 9, 9, 9]) ∧
    dictLookup (processFile ⟨true, true, false, []⟩ ["r", "z.txt"]
        (.ok ⟨[], 5, 5, 5⟩ true) emptyScanState).files ["r", "z.txt"] =
      some { size := 0, mtime := 5, atime := 5, ctime := 5, hash := none } ∧
    dictLookup (processFile ⟨true, true, false, []⟩ ["r", "w.txt"]
        (.ok ⟨[3], 5, 5, 5⟩ false) emptyScanState).files ["r", "w.txt"] =
      some { size := 1, mtime := 5, atime := 5, ctime := 5, hash := none } :=
  ⟨⟨by decide, quick_hash_spec.1 [1, 2, 3, 4, 5] 2 (by decide)⟩,
   ⟨by decide, quick_hash_spec.2.1 [9, 9, 9, 9] 2 (by decide)⟩,
   quick_hash_spec.2.2.1 ⟨true, true, false, []⟩ ["r", "z.txt"] ⟨[], 5, 5, 5⟩
     emptyScanState rfl,
   (quick_hash_spec.2.2.2 ⟨true, true, false, []⟩ ["r", "w.txt"] ⟨[3], 5, 5, 5⟩
     emptyScanState).1⟩

/-! ### C5 — per-item error accumulation -/

/-- C5 counterexample: a file that vanished between directory listing and
stat (FileNotFoundError in _process_file) does NOT append an entry to the
errors list — the state is untouched, refuting the claim that no per-item
error is missing from the final errors list. -/
theorem vanished_file_no_error_entry :
    (processFile ⟨true, true, false, []⟩ ["r", "gone.txt"] .notFound
        emptyScanState).errors = [] ∧
    ¬ ((processFile ⟨true, true, false, []⟩ ["r", "gone.txt"] .notFound
        emptyScanState).errors.length = emptyScanState.errors.length + 1) := by
  exact ⟨rfl, by decide⟩

/-- C5 amended: PermissionError and generic exceptions during per-file
processing append an entry to errors and leave the rest of the state alone;
so do PermissionError and generic exceptions while listing a non-skipped
directory; a vanished file (FileNotFoundError) is logged and omitted,
changing nothing — in every case processing continues (total functions, no
abort). -/
theorem per_item_error_accumulation (cfg : Config) (p : Path) (st : ScanState)
    (hx : is_path_excluded p cfg.exclude_paths = false)
    (hh : (cfg.skip_hidden && basenameStartsDot p) = false) :
    processFile cfg p .permissionDenied st =
      { st with errors := st.errors ++ ["Permission denied: " ++ pathStr p] } ∧
    (∀ msg, processFile cfg p (.failure msg) st =
      { st with errors :=
          st.errors ++ ["Error processing file " ++ pathStr p ++ ": " ++ msg] }) ∧
    processFile cfg p .notFound st = st ∧
    (processDirectory cfg p .permissionDenied st).1.errors =
      st.errors ++ ["Permission denied: " ++ pathStr p] ∧
    (∀ msg, (processDirectory cfg p (.failure msg) st).1.errors =
      st.errors ++ ["Error processing directory " ++ pathStr p ++ ": " ++ msg]) := by
  refine ⟨rfl, fun msg => rfl, rfl, ?_, fun msg => ?_⟩
  · simp [processDirectory, hx, hh]
  · simp [processDirectory, hx, hh]

/-- Witness for C5's amended statement at concrete inputs. -/
theorem per_item_error_accumulation_witness :
    is_path_excluded ["r", "d"] [] = false ∧
    (false && basenameStartsDot ["r", "d"]) = false ∧
    (processDirectory ⟨true, true, false, []⟩ ["r", "d"] .permissionDenied
        emptyScanState).1.errors = ["Permission denied: " ++ pathStr ["r", "d"]] :=
  ⟨rfl, rfl, by
    have h := per_item_error_accumulation ⟨true, true, false, []⟩ ["r", "d"]
      emptyScanState rfl rfl
    simpa using h.2.2.2.1⟩

/-! ### C8 — scan refusal cases -/

/-- C8: scan refuses in exactly two situations.  While a scan is running it
returns None with only a logged warning and no state change and no error
event; for a missing or non-directory root it returns None, emits a
scan_error event, and touches no aggregate state; in every other case the
scan starts and (blocking) returns results. -/
theorem scan_refusal (s : Scanner) (path : Path) :
    (s.running = true → ∀ stat, DiskScanner.scan s path stat =
        (s, none, [], ["Scan already in progress"])) ∧
    (s.running = false →
      DiskScanner.scan s path .missing =
        (s, none, [.scanError ("Path does not exist: " ++ pathStr path)],
         ["Path does not exist: " ++ pathStr path]) ∧
      DiskScanner.scan s path .nonDirectory =
        (s, none, [.scanError ("Path is not a directory: " ++ pathStr path)],
         ["Path is not a directory: " ++ pathStr path]) ∧
      ∀ entries, ((DiskScanner.scan s path (.directory entries)).2.1).isSome = true) := by
  constructor
  · intro h stat
    simp [DiskScanner.scan, h]
  · intro h
    refine ⟨?_, ?_, ?_⟩ <;> simp [DiskScanner.scan, h]

/-- Witness for C8 at concrete inputs. -/
theorem scan_refusal_witness :
    DiskScanner.scan { initScanner ⟨true, true, true, []⟩ with running := true }
        ["r"] .missing =
      ({ initScanner ⟨true, true, true, []⟩ with running := true }, none, [],
       ["Scan already in progress"]) ∧
    DiskScanner.scan (initScanner ⟨true, true, true, []⟩) ["r"] .missing =
      (initScanner ⟨true, true, true, []⟩, none,
       [.scanError ("Path does not exist: " ++ pathStr ["r"])],
       ["Path does not exist: " ++ pathStr ["r"]]) ∧
    ((DiskScanner.scan (initScanner ⟨true, true, true, []⟩) ["r"]
        (.directory [])).2.1).isSome = true :=
  ⟨(scan_refusal _ ["r"]).1 rfl .missing,
   ((scan_refusal _ ["r"]).2 rfl).1,
   ((scan_refusal _ ["r"]).2 rfl).2.2 []⟩

/-! ### C10 — the running flag is never reset -/

/-- C10: a successful blocking scan returns results and leaves `running`
true (nothing on the success path resets it), so every later scan call on
the same coordinator returns None with the scan-in-progress warning. -/
theorem scan_once_only (s : Scanner) (path : Path)
    (entries : List (String × FSTree)) (h : s.running = false) :
    ((DiskScanner.scan s path (.directory entries)).2.1).isSome = true ∧
    (DiskScanner.scan s path (.directory entries)).1.running = true ∧
    ∀ (path' : Path) (stat' : RootStat),
      DiskScanner.scan (DiskScanner.scan s path (.directory entries)).1 path' stat' =
        ((DiskScanner.scan s path (.directory entries)).1, none, [],
         ["Scan already in progress"]) := by
  refine ⟨by simp [DiskScanner.scan, h], by simp [DiskScanner.scan, h], ?_⟩
  intro path' stat'
  have hrun : (DiskScanner.scan s path (.directory entries)).1.running = true := by
    simp [DiskScanner.scan, h]
  generalize hgen : (DiskScanner.scan s path (.directory entries)).1 = s1 at hrun ⊢
  simp [DiskScanner.scan, hrun]

/-- Witness for C10 at concrete inputs: the second scan call after a
completed first scan is refused. -/
theorem scan_once_only_witness :
    DiskScanner.scan
        (DiskScanner.scan (initScanner ⟨true, true, true, []⟩) ["r"]
          (.directory [])).1 ["q"] .missing =
      ((DiskScanner.scan (initScanner ⟨true, true, true, []⟩) ["r"]
          (.directory [])).1, none, [], ["Scan already in progress"]) :=
  (scan_once_only _ ["r"] [] rfl).2.2 ["q"] .missing

/-! ### C4 — checkpoint clearing on completion -/

/-- C4 (code bug evaluation): a successful scan leaves the checkpoint store
exactly as it was — the cache file and index entry for the scanned root
survive scan completion, because _finalize_scan_results (and everything else
a scan runs) never invokes _clear_partial_scan; the last conjunct shows the
dead clearing routine would indeed have removed them. -/
theorem checkpoint_not_cleared_on_completion :
    (DiskScanner.scanWithCheckpoints (initScanner ⟨true, true, true, []⟩) ["r"]
        (.directory [("a.txt", .file ⟨[1], 1, 1, 1⟩)])
        ⟨[(["r"], "scan_abc.pickle")], ["scan_abc.pickle"]⟩).2 =
      ⟨[(["r"], "scan_abc.pickle")], ["scan_abc.pickle"]⟩ ∧
    ((DiskScanner.scanWithCheckpoints (initScanner ⟨true, true, true, []⟩) ["r"]
        (.directory [("a.txt", .file ⟨[1], 1, 1, 1⟩)])
        ⟨[(["r"], "scan_abc.pickle")], ["scan_abc.pickle"]⟩).1.2.1).isSome = true ∧
    clearCheckpoint ["r"] ⟨[(["r"], "scan_abc.pickle")], ["scan_abc.pickle"]⟩ =
      ⟨[], []⟩ := by
  refine ⟨rfl, ?_, by decide⟩
  decide

/-! ### C9 — analyzer idempotence -/

/-- C9: set_scan_results assigns every mutable analyzer field before
analysis, so analysis output is a function of the scan results and the
analysis time alone: a second run on the same results is identical, and
prior analyzer state is irrelevant. -/
theorem analyzer_idempotent (hrs : Nat → String) (fmtT : Int → String) (now : Int)
    (a₁ a₂ : AnalyzerState) (r : Option ScanResults) :
    setScanResults hrs fmtT now (setScanResults hrs fmtT now a₁ r) r =
      setScanResults hrs fmtT now a₁ r ∧
    setScanResults hrs fmtT now a₁ r = setScanResults hrs fmtT now a₂ r :=
  ⟨rfl, rfl⟩

/-! ### Sorting lemmas for the stable Bool-comparator insertion sort -/

theorem length_orderedInsertB {α : Type} (le : α → α → Bool) (a : α) (l : List α) :
    (orderedInsertB le a l).length = l.length + 1 := by
  induction l with
  | nil => rfl
  | cons b t ih =>
      by_cases h : le a b = true <;> simp [orderedInsertB, h, ih]

theorem length_insertionSortB {α : Type} (le : α → α → Bool) (l : List α) :
    (insertionSortB le l).length = l.length := by
  induction l with
  | nil => rfl
  | cons a t ih => simp [insertionSortB, length_orderedInsertB, ih]

theorem mem_orderedInsertB {α : Type} (le : α → α → Bool) (a : α) (l : List α) (x : α) :
    x ∈ orderedInsertB le a l ↔ x = a ∨ x ∈ l := by
  induction l with
  | nil => simp [orderedInsertB]
  | cons b t ih =>
      by_cases h : le a b = true <;> simp [orderedInsertB, h, ih] <;> tauto

theorem pairwise_orderedInsertB {α : Type} (le : α → α → Bool)
    (htot : ∀ x y, le x y = true ∨ le y x = true)
    (htr : ∀ x y z, le x y = true → le y z = true → le x z = true)
    (a : α) (l : List α) (hl : l.Pairwise (fun x y => le x y = true)) :
    (orderedInsertB le a l).Pairwise (fun x y => le x y = true) := by
  induction l with
  | nil => simp [orderedInsertB]
  | cons b t ih =>
      rcases List.pairwise_cons.mp hl with ⟨hb, ht⟩
      by_cases h : le a b = true
      · simp only [orderedInsertB, if_pos h]
        refine List.pairwise_cons.mpr ⟨?_, hl⟩
        intro y hy
        rcases List.mem_cons.mp hy with rfl | hy
        · exact h
        · exact htr a b y h (hb y hy)
      · simp only [orderedInsertB, if_neg h]
        refine List.pairwise_cons.mpr ⟨?_, ih ht⟩
        intro y hy
        rcases (mem_orderedInsertB le a t y).mp hy with rfl | hy
        · rcases htot y b with hab | hba
          · exact absurd hab h
          · exact hba
        · exact hb y hy

theorem pairwise_insertionSortB {α : Type} (le : α → α → Bool)
    (htot : ∀ x y, le x y = true ∨ le y x = true)
    (htr : ∀ x y z, le x y = true → le y z = true → le x z = true)
    (l : List α) : (insertionSortB le l).Pairwise (fun x y => le x y = true) := by
  induction l with
  | nil => simp [insertionSortB]
  | cons a t ih => exact pairwise_orderedInsertB le htot htr a _ ih

/-! ### C6 — largest-files query -/

/-- C6 (amended): the largest-files query is non-increasing by size, but its
length is `min k (min 100 total_files)` — the underlying selection was
already truncated to _find_largest_files' limit of 100 before get_largest_files
slices it, so asking for more than 100 entries cannot return more than 100. -/
theorem largest_files_sorted_and_length (hrs : Nat → String) (fmtT : Int → String)
    (now : Int) (a : AnalyzerState) (r : ScanResults) (k : Nat) :
    (getLargestFiles (setScanResults hrs fmtT now a (some r)) k).Pairwise
        (fun x y => y.size ≤ x.size) ∧
    (getLargestFiles (setScanResults hrs fmtT now a (some r)) k).length =
      min k (min 100 r.files.length) := by
  have hfield : (setScanResults hrs fmtT now a (some r)).largest_files =
      findLargestFiles hrs r 100 := rfl
  constructor
  · show ((findLargestFiles hrs r 100).take k).Pairwise (fun x y => y.size ≤ x.size)
    have hsorted := pairwise_insertionSortB
      (fun (x y : Path × Nat) => decide (y.2 ≤ x.2))
      (fun x y => by
        rcases Nat.le_total y.2 x.2 with h | h
        · exact Or.inl (decide_eq_true h)
        · exact Or.inr (decide_eq_true h))
      (fun x y z hxy hyz =>
        decide_eq_true (Nat.le_trans (of_decide_eq_true hyz) (of_decide_eq_true hxy)))
      (r.files.map (fun e => (e.1, e.2.size)))
    have hsorted' : (insertionSortB (fun (x y : Path × Nat) => decide (y.2 ≤ x.2))
        (r.files.map (fun e => (e.1, e.2.size)))).Pairwise
        (fun x y => y.2 ≤ x.2) :=
      hsorted.imp (fun h => of_decide_eq_true h)
    have htake := hsorted'.sublist (List.take_sublist 100 _)
    have hmap : ((insertionSortB (fun (x y : Path × Nat) => decide (y.2 ≤ x.2))
        (r.files.map (fun e => (e.1, e.2.size)))).take 100 |>.map
          (fun e => ({ path := e.1, size := e.2, size_human := hrs e.2
                       ext := pathExt e.1, filename := pathBasename e.1 } : LargeFileEntry))).Pairwise
        (fun x y => y.size ≤ x.size) :=
      List.pairwise_map.mpr htake
    exact hmap.sublist (List.take_sublist k _)
  · show ((findLargestFiles hrs r 100).take k).length = min k (min 100 r.files.length)
    have hlen : (findLargestFiles hrs r 100).length = min 100 r.files.length := by
      simp [findLargestFiles, length_insertionSortB]
    simp [List.length_take, hlen]

/-- C6 counterexample: an analyzed ScanResult with 101 files and k = 101 —
the query returns 100 entries, not min(k, total_files) = 101. -/
theorem largest_files_length_counterexample :
    (getLargestFiles
        (setScanResults (fun _ => "") (fun _ => "") 0 initAnalyzer
          (some { root_path := ["r"]
                  files := (List.range 101).map (fun i => ([toString i],
                    { size := 5, mtime := 1, atime := 1, ctime := 1, hash := none }))
                  dirs := [], total_size := 505, total_files := 101, total_dirs := 0
                  errors := [] }))
        101).length = 100 ∧
    ¬ ((getLargestFiles
        (setScanResults (fun _ => "") (fun _ => "") 0 initAnalyzer
          (some { root_path := ["r"]
                  files := (List.range 101).map (fun i => ([toString i],
                    { size := 5, mtime := 1, atime := 1, ctime := 1, hash := none }))
                  dirs := [], total_size := 505, total_files := 101, total_dirs := 0
                  errors := [] }))
        101).length = min 101 101) := by
  constructor
  · decide
  · decide

/-- Witness for C6's amended statement at a concrete input. -/
theorem largest_files_sorted_and_length_witness :
    ((getLargestFiles
        (setScanResults (fun _ => "") (fun _ => "") 0 initAnalyzer
          (some { root_path := ["r"]
                  files := [(["r", "a"],
                             { size := 3, mtime := 1, atime := 1, ctime := 1, hash := none }),
                            (["r", "b"],
                             { size := 7, mtime := 1, atime := 1, ctime := 1, hash := none })]
                  dirs := [], total_size := 10, total_files := 2, total_dirs := 0
                  errors := [] }))
        1).Pairwise (fun x y => y.size ≤ x.size)) ∧
    (getLargestFiles
        (setScanResults (fun _ => "") (fun _ => "") 0 initAnalyzer
          (some { root_path := ["r"]
                  files := [(["r", "a"],
                             { size := 3, mtime := 1, atime := 1, ctime := 1, hash := none }),
                            (["r", "b"],
                             { size := 7, mtime := 1, atime := 1, ctime := 1, hash := none })]
                  dirs := [], total_size := 10, total_files := 2, total_dirs := 0
                  errors := [] }))
        1).length = min 1 (min 100 2) :=
  largest_files_sorted_and_length (fun _ => "") (fun _ => "") 0 initAnalyzer
    { root_path := ["r"]
      files := [(["r", "a"], { size := 3, mtime := 1, atime := 1, ctime := 1, hash := none }),
                (["r", "b"], { size := 7, mtime := 1, atime := 1, ctime := 1, hash := none })]
      dirs := [], total_size := 10, total_files := 2, total_dirs := 0, errors := [] } 1

/-! ### C3 — exclusion invariant -/

theorem dictLookup_dictAdjust_none {κ β : Type} [DecidableEq κ]
    (m : List (κ × β)) (k q : κ) (f : β → β) (h : dictLookup m q = none) :
    dictLookup (dictAdjust m k f) q = none := by
  simp [dictLookup_dictAdjust, h]

theorem updateAncestors_lookup_none (dirs : List (Path × DirEntry)) (parent : Path)
    (file_size : Nat) :
    ∀ q, dictLookup dirs q = none →
      dictLookup (updateAncestors dirs parent file_size) q = none := by
  induction dirs, parent, file_size using updateAncestors.induct with
  | case1 dirs parent file_size hcond ih =>
      intro q h
      rw [updateAncestors, dif_pos hcond]
      exact ih q (dictLookup_dictAdjust_none _ _ _ _ h)
  | case2 dirs parent file_size hcond =>
      intro q h
      rw [updateAncestors, dif_neg hcond]
      exact h

theorem processItems_aggregates (cfg : Config) (dir_path : Path)
    (es : List (String × FSTree)) : ∀ st : ScanState,
    (processItems cfg dir_path es st).1.files = st.files ∧
    (processItems cfg dir_path es st).1.file_count = st.file_count ∧
    (processItems cfg dir_path es st).1.total_size = st.total_size ∧
    (processItems cfg dir_path es st).1.errors = st.errors := by
  induction es with
  | nil => intro st; exact ⟨rfl, rfl, rfl, rfl⟩
  | cons e rest ih =>
      intro st
      obtain ⟨n, t⟩ := e
      simp only [processItems]
      split
      · exact ih st
      · split
        · exact ih st
        · cases t with
          | dir sub_entries => exact ih _
          | file m => exact ih _

theorem processItems_dirs_none (cfg : Config) (dir_path : Path)
    (es : List (String × FSTree)) : ∀ (st : ScanState) (q : Path),
    dictLookup st.dirs q = none →
    dictLookup (processItems cfg dir_path es st).1.dirs q = none := by
  induction es with
  | nil => intro st q h; exact h
  | cons e rest ih =>
      intro st q h
      obtain ⟨n, t⟩ := e
      simp only [processItems]
      split
      · exact ih st q h
      · split
        · exact ih st q h
        · cases t with
          | dir sub_entries => exact ih _ q (dictLookup_dictAdjust_none _ _ _ _ h)
          | file m => exact ih _ q (dictLookup_dictAdjust_none _ _ _ _ h)

theorem processItems_fileQueue_not_excluded (cfg : Config) (dir_path : Path)
    (es : List (String × FSTree)) : ∀ (st : ScanState) (t : Path × FileMeta),
    t ∈ (processItems cfg dir_path es st).2.2 →
    is_path_excluded t.1 cfg.exclude_paths = false := by
  induction es with
  | nil => intro st t h; simp [processItems] at h
  | cons e rest ih =>
      intro st t h
      obtain ⟨n, u⟩ := e
      simp only [processItems] at h
      split at h
      · exact ih st t h
      · split at h
        · exact ih st t h
        · cases u with
          | dir sub_entries => exact ih _ t h
          | file m =>
              rcases List.mem_cons.mp h with rfl | h'
              · next hx _ =>
                  rw [Bool.not_eq_true] at hx
                  exact hx
              · exact ih _ t h'

theorem processDirectory_aggregates (cfg : Config) (dir_path : Path)
    (es : List (String × FSTree)) (st : ScanState) :
    (processDirectory cfg dir_path (.listed es) st).1.files = st.files ∧
    (processDirectory cfg dir_path (.listed es) st).1.file_count = st.file_count ∧
    (processDirectory cfg dir_path (.listed es) st).1.total_size = st.total_size ∧
    (processDirectory cfg dir_path (.listed es) st).1.errors = st.errors := by
  simp only [processDirectory]
  split
  · exact ⟨rfl, rfl, rfl, rfl⟩
  · split
    · exact ⟨rfl, rfl, rfl, rfl⟩
    · exact processItems_aggregates cfg dir_path es _

theorem processDirectory_dirs_none (cfg : Config) (dir_path : Path)
    (es : List (String × FSTree)) (st : ScanState) (p : Path)
    (hp : is_path_excluded p cfg.exclude_paths = true)
    (h : dictLookup st.dirs p = none) :
    dictLookup (processDirectory cfg dir_path (.listed es) st).1.dirs p = none := by
  simp only [processDirectory]
  split
  · exact h
  · split
    · exact h
    · next hx _ =>
        have hne : p ≠ dir_path := by
          intro he
          rw [he] at hp
          exact hx hp
        apply processItems_dirs_none
        rw [dictLookup_dictInsert_ne _ _ _ _ hne]
        exact h

theorem processDirectory_fileQueue_not_excluded (cfg : Config) (dir_path : Path)
    (es : List (String × FSTree)) (st : ScanState) :
    ∀ t ∈ (processDirectory cfg dir_path (.listed es) st).2.2,
      is_path_excluded t.1 cfg.exclude_paths = false := by
  intro t h
  simp only [processDirectory] at h
  split at h
  · simp at h
  · split at h
    · simp at h
    · exact processItems_fileQueue_not_excluded cfg dir_path es _ t h

theorem drainDirs_excluded (cfg : Config) (p : Path)
    (hp : is_path_excluded p cfg.exclude_paths = true) :
    ∀ (queue : List (Path × List (String × FSTree))) (facc : List (Path × FileMeta))
      (st : ScanState),
      (∀ t ∈ facc, is_path_excluded t.1 cfg.exclude_paths = false) →
      dictLookup st.files p = none →
      dictLookup st.dirs p = none →
      dictLookup (drainDirs cfg queue facc st).1.files p = none ∧
      dictLookup (drainDirs cfg queue facc st).1.dirs p = none ∧
      ∀ t ∈ (drainDirs cfg queue facc st).2,
        is_path_excluded t.1 cfg.exclude_paths = false := by
  intro queue facc st
  induction queue, facc, st using drainDirs.induct with
  | cfg => exact cfg
  | case1 facc st =>
      intro hfacc h1 h2
      rw [drainDirs]
      exact ⟨h1, h2, hfacc⟩
  | case2 dir_path entries rest facc st r ih =>
      intro hfacc h1 h2
      rw [drainDirs]
      have hq1 : ∀ t ∈ facc ++ (processDirectory cfg dir_path (.listed entries) st).2.2,
          is_path_excluded t.1 cfg.exclude_paths = false := by
        intro t ht
        rcases List.mem_append.mp ht with ht | ht
        · exact hfacc t ht
        · exact processDirectory_fileQueue_not_excluded cfg dir_path entries st t ht
      have hq2 : dictLookup
          (processDirectory cfg dir_path (.listed entries) st).1.files p = none := by
        rw [(processDirectory_aggregates cfg dir_path entries st).1]
        exact h1
      have hq3 : dictLookup
          (processDirectory cfg dir_path (.listed entries) st).1.dirs p = none :=
        processDirectory_dirs_none cfg dir_path entries st p hp h2
      exact ih hq1 hq2 hq3

theorem drainFiles_excluded (cfg : Config) (p : Path)
    (hp : is_path_excluded p cfg.exclude_paths = true) :
    ∀ (facc : List (Path × FileMeta)) (st : ScanState),
      (∀ t ∈ facc, is_path_excluded t.1 cfg.exclude_paths = false) →
      dictLookup st.files p = none →
      dictLookup st.dirs p = none →
      dictLookup (drainFiles cfg facc st).files p = none ∧
      dictLookup (drainFiles cfg facc st).dirs p = none := by
  intro facc
  induction facc with
  | nil => intro st _ h1 h2; exact ⟨h1, h2⟩
  | cons t rest ih =>
      intro st hall h1 h2
      obtain ⟨fp, m⟩ := t
      simp only [drainFiles]
      have hfp : is_path_excluded fp cfg.exclude_paths = false :=
        hall (fp, m) (List.mem_cons_self _ _)
      have hne : p ≠ fp := by
        intro he
        rw [← he, hp] at hfp
        exact Bool.noConfusion hfp
      apply ih
      · intro u hu
        exact hall u (List.mem_cons_of_mem _ hu)
      · show dictLookup (processFile cfg fp (.ok m true) st).files p = none
        simp only [processFile]
        rw [dictLookup_dictInsert_ne _ _ _ _ hne]
        exact h1
      · show dictLookup (processFile cfg fp (.ok m true) st).dirs p = none
        simp only [processFile]
        exact updateAncestors_lookup_none _ _ _ p h2

/-- C3: a path lying under any exclude_paths entry (is_path_excluded, the
commonpath prefix test) never appears in the files or dirs maps of a
completed scan: every path is tested before it enters the file queue and
again when dequeued from the directory queue, so excluded subtrees produce
no records. -/
theorem exclusion_invariant (cfg : Config) (root : Path)
    (entries : List (String × FSTree)) (p : Path)
    (hp : is_path_excluded p cfg.exclude_paths = true) :
    (DiskScanner.scan (initScanner cfg) root (.directory entries)).2.1 =
      some (finalizeScanResults root (scanDirectory cfg root entries emptyScanState)) ∧
    dictLookup (finalizeScanResults root
        (scanDirectory cfg root entries emptyScanState)).files p = none ∧
    dictLookup (finalizeScanResults root
        (scanDirectory cfg root entries emptyScanState)).dirs p = none := by
  refine ⟨by simp [DiskScanner.scan, initScanner], ?_, ?_⟩ <;>
  · have hd := drainDirs_excluded cfg p hp [(root, entries)] []
      { emptyScanState with paths_to_process := emptyScanState.paths_to_process + 1 }
      (by intro t ht; simp at ht) rfl rfl
    have hf := drainFiles_excluded cfg p hp
      (drainDirs cfg [(root, entries)] []
        { emptyScanState with paths_to_process := emptyScanState.paths_to_process + 1 }).2
      (drainDirs cfg [(root, entries)] []
        { emptyScanState with paths_to_process := emptyScanState.paths_to_process + 1 }).1
      hd.2.2 hd.1 hd.2.1
    first
      | exact hf.1
      | exact hf.2

/-- Witness for C3 at a concrete excluded subtree. -/
theorem exclusion_invariant_witness :
    is_path_excluded ["r", "skip", "x.txt"] [["r", "skip"]] = true ∧
    dictLookup (finalizeScanResults ["r"]
        (scanDirectory ⟨true, true, false, [["r", "skip"]]⟩ ["r"]
          [("skip", .dir [("x.txt", .file ⟨[1], 1, 1, 1⟩)]),
           ("keep.txt", .file ⟨[2, 3], 1, 1, 1⟩)]
          emptyScanState)).files ["r", "skip", "x.txt"] = none ∧
    dictLookup (finalizeScanResults ["r"]
        (scanDirectory ⟨true, true, false, [["r", "skip"]]⟩ ["r"]
          [("skip", .dir [("x.txt", .file ⟨[1], 1, 1, 1⟩)]),
           ("keep.txt", .file ⟨[2, 3], 1, 1, 1⟩)]
          emptyScanState)).dirs ["r", "skip"] = none := by
  refine ⟨by decide, ?_, ?_⟩
  · exact (exclusion_invariant ⟨true, true, false, [["r", "skip"]]⟩ ["r"]
      [("skip", .dir [("x.txt", .file ⟨[1], 1, 1, 1⟩)]),
       ("keep.txt", .file ⟨[2, 3], 1, 1, 1⟩)]
      ["r", "skip", "x.txt"] (by decide)).2.1
  · exact (exclusion_invariant ⟨true, true, false, [["r", "skip"]]⟩ ["r"]
      [("skip", .dir [("x.txt", .file ⟨[1], 1, 1, 1⟩)]),
       ("keep.txt", .file ⟨[2, 3], 1, 1, 1⟩)]
      ["r", "skip"] (by decide)).2.2

/-! ### C2 — duplicate detection: grouping lemmas -/

theorem dictLookup_groupInsert {κ α : Type} [DecidableEq κ]
    (m : List (κ × List α)) (k q : κ) (a : α) :
    dictLookup (groupInsert m k a) q =
      if q = k then some ((dictLookup m k).getD [] ++ [a]) else dictLookup m q := by
  induction m with
  | nil =>
      by_cases hq : q = k
      · subst hq
        simp [groupInsert, dictLookup]
      · have hq' : ¬ k = q := fun hx => hq hx.symm
        simp [groupInsert, dictLookup, hq, hq']
  | cons e rest ih =>
      by_cases he : e.1 = k
      · subst he
        by_cases hq : q = e.1
        · subst hq
          simp [groupInsert, dictLookup]
        · have hq' : ¬ e.1 = q := fun hx => hq hx.symm
          simp [groupInsert, dictLookup, hq, hq']
      · by_cases hq : e.1 = q
        · subst hq
          have hq2 : ¬ e.1 = k := he
          simp [groupInsert, he, dictLookup, hq2]
        · simp [groupInsert, he, dictLookup, hq, ih]

theorem foldl_groupStep_lookup_some {κ α : Type} [DecidableEq κ]
    (key : α → Option κ) (l : List α) :
    ∀ (m : List (κ × List α)) (q : κ) (g : List α), dictLookup m q = some g →
      dictLookup
        (l.foldl (fun m a => match key a with | some k => groupInsert m k a | none => m) m)
        q = some (g ++ l.filter (fun a => decide (key a = some q))) := by
  induction l with
  | nil => intro m q g h; simpa using h
  | cons a l ih =>
      intro m q g h
      simp only [List.foldl_cons]
      rcases hk : key a with _ | k
      · rw [show List.filter (fun a => decide (key a = some q)) (a :: l) =
            List.filter (fun a => decide (key a = some q)) l from by
          simp [List.filter_cons, hk]]
        simp only [hk]
        exact ih m q g h
      · by_cases hkq : k = q
        · subst hkq
          rw [show List.filter (fun a => decide (key a = some k)) (a :: l) =
              a :: List.filter (fun a => decide (key a = some k)) l from by
            simp [List.filter_cons, hk]]
          simp only [hk]
          have h2 : dictLookup (groupInsert m k a) k = some (g ++ [a]) := by
            rw [dictLookup_groupInsert, if_pos rfl, h]
            rfl
          rw [ih (groupInsert m k a) k (g ++ [a]) h2]
          simp
        · rw [show List.filter (fun a => decide (key a = some q)) (a :: l) =
              List.filter (fun a => decide (key a = some q)) l from by
            simp [List.filter_cons, hk, hkq]]
          simp only [hk]
          have h2 : dictLookup (groupInsert m k a) q = some g := by
            rw [dictLookup_groupInsert, if_neg (fun hx => hkq hx.symm)]
            exact h
          exact ih (groupInsert m k a) q g h2

theorem foldl_groupStep_lookup_none {κ α : Type} [DecidableEq κ]
    (key : α → Option κ) (l : List α) :
    ∀ (m : List (κ × List α)) (q : κ), dictLookup m q = none →
      dictLookup
        (l.foldl (fun m a => match key a with | some k => groupInsert m k a | none => m) m)
        q =
        match l.filter (fun a => decide (key a = some q)) with
        | [] => none
        | f => some f := by
  induction l with
  | nil => intro m q h; simpa using h
  | cons a l ih =>
      intro m q h
      simp only [List.foldl_cons]
      rcases hk : key a with _ | k
      · rw [show List.filter (fun a => decide (key a = some q)) (a :: l) =
            List.filter (fun a => decide (key a = some q)) l from by
          simp [List.filter_cons, hk]]
        simp only [hk]
        exact ih m q h
      · by_cases hkq : k = q
        · subst hkq
          rw [show List.filter (fun a => decide (key a = some k)) (a :: l) =
              a :: List.filter (fun a => decide (key a = some k)) l from by
            simp [List.filter_cons, hk]]
          simp only [hk]
          have h2 : dictLookup (groupInsert m k a) k = some [a] := by
            rw [dictLookup_groupInsert, if_pos rfl, h]
            rfl
          rw [foldl_groupStep_lookup_some key l (groupInsert m k a) k [a] h2]
          simp
        · rw [show List.filter (fun a => decide (key a = some q)) (a :: l) =
              List.filter (fun a => decide (key a = some q)) l from by
            simp [List.filter_cons, hk, hkq]]
          simp only [hk]
          have h2 : dictLookup (groupInsert m k a) q = none := by
            rw [dictLookup_groupInsert, if_neg (fun hx => hkq hx.symm)]
            exact h
          exact ih (groupInsert m k a) q h2

theorem dictLookup_groupAll {κ α : Type} [DecidableEq κ]
    (key : α → Option κ) (l : List α) (q : κ) :
    dictLookup (groupAll key l) q =
      match l.filter (fun a => decide (key a = some q)) with
      | [] => none
      | f => some f :=
  foldl_groupStep_lookup_none key l [] q rfl

theorem dictLookup_isSome_iff_mem_keys {κ β : Type} [DecidableEq κ]
    (m : List (κ × β)) (q : κ) :
    (dictLookup m q).isSome ↔ q ∈ m.map Prod.fst := by
  induction m with
  | nil => simp [dictLookup]
  | cons e rest ih =>
      by_cases he : e.1 = q
      · simp [dictLookup, he]
      · have hq : ¬ q = e.1 := fun hx => he hx.symm
        simp [dictLookup, he, hq, ih]

theorem groupInsert_keys {κ α : Type} [DecidableEq κ]
    (m : List (κ × List α)) (k : κ) (a : α) :
    (groupInsert m k a).map Prod.fst =
      if (dictLookup m k).isSome then m.map Prod.fst else m.map Prod.fst ++ [k] := by
  induction m with
  | nil => simp [groupInsert, dictLookup]
  | cons e rest ih =>
      by_cases he : e.1 = k
      · subst he
        simp [groupInsert, dictLookup]
      · by_cases hs : (dictLookup rest k).isSome <;>
          simp [groupInsert, he, dictLookup, ih, hs]

theorem groupAll_keys_nodup {κ α : Type} [DecidableEq κ]
    (key : α → Option κ) (l : List α) :
    ((groupAll key l).map Prod.fst).Nodup := by
  suffices hgen : ∀ m : List (κ × List α), (m.map Prod.fst).Nodup →
      ((l.foldl
        (fun m a => match key a with | some k => groupInsert m k a | none => m)
        m).map Prod.fst).Nodup by
    exact hgen [] (by simp)
  induction l with
  | nil => intro m hm; exact hm
  | cons a l ih =>
      intro m hm
      simp only [List.foldl_cons]
      rcases hk : key a with _ | k
      · simp only [hk]
        exact ih m hm
      · simp only [hk]
        apply ih
        rw [groupInsert_keys]
        split
        · exact hm
        · next hs =>
            have hk2 : k ∉ m.map Prod.fst := fun hmem => by
              rw [← dictLookup_isSome_iff_mem_keys] at hmem
              exact hs hmem
            simp [List.nodup_append, hm, hk2]

theorem dictLookup_of_mem_of_nodupKeys {κ β : Type} [DecidableEq κ]
    (m : List (κ × β)) (hn : (m.map Prod.fst).Nodup) (k : κ) (g : β)
    (hm : (k, g) ∈ m) : dictLookup m k = some g := by
  induction m with
  | nil => simp at hm
  | cons e rest ih =>
      rw [List.map_cons, List.nodup_cons] at hn
      rcases List.mem_cons.mp hm with heq | hm'
      · rw [← heq]
        simp [dictLookup]
      · by_cases he : e.1 = k
        · exfalso
          apply hn.1
          rw [he]
          exact List.mem_map_of_mem Prod.fst hm'
        · simp only [dictLookup, he, if_neg he]
          exact ih hn.2 hm'

theorem mem_of_dictLookup_some {κ β : Type} [DecidableEq κ]
    (m : List (κ × β)) (k : κ) (g : β) (h : dictLookup m k = some g) :
    (k, g) ∈ m := by
  induction m with
  | nil => simp [dictLookup] at h
  | cons e rest ih =>
      by_cases he : e.1 = k
      · obtain ⟨e1, e2⟩ := e
        simp only at he
        subst he
        simp [dictLookup] at h
        rw [← h]
        exact List.mem_cons_self _ _
      · simp only [dictLookup, he, if_neg he] at h
        exact List.mem_cons_of_mem _ (ih h)

theorem groupAll_mem_iff {κ α : Type} [DecidableEq κ]
    (key : α → Option κ) (l : List α) (k : κ) (g : List α) :
    (k, g) ∈ groupAll key l ↔
      g = l.filter (fun a => decide (key a = some k)) ∧ g ≠ [] := by
  constructor
  · intro hm
    have hl := dictLookup_of_mem_of_nodupKeys _ (groupAll_keys_nodup key l) k g hm
    rw [dictLookup_groupAll] at hl
    rcases hf : l.filter (fun a => decide (key a = some k)) with _ | ⟨x, xs⟩
    · rw [hf] at hl
      simp at hl
    · rw [hf] at hl
      simp only [Option.some.injEq] at hl
      exact ⟨hl.symm ▸ rfl, by rw [← hl]; simp⟩
  · rintro ⟨rfl, hne⟩
    apply mem_of_dictLookup_some
    rw [dictLookup_groupAll]
    rcases hf : l.filter (fun a => decide (key a = some k)) with _ | ⟨x, xs⟩
    · exact absurd hf hne
    · rfl

theorem length_filter_mono {α : Type} (l : List α) (p q : α → Bool)
    (h : ∀ a ∈ l, p a = true → q a = true) :
    (l.filter p).length ≤ (l.filter q).length := by
  induction l with
  | nil => simp
  | cons a l ih =>
      have ih' := ih (fun x hx => h x (List.mem_cons_of_mem _ hx))
      rcases hp : p a with _ | _
      · rcases hq : q a with _ | _
        · simp only [List.filter_cons, hp, hq, Bool.false_eq_true, if_false]
          exact ih'
        · simp only [List.filter_cons, hp, hq, Bool.false_eq_true, if_false,
            if_true, List.length_cons]
          omega
      · have hq := h a (List.mem_cons_self _ _) hp
        simp only [List.filter_cons, hp, hq, if_true, List.length_cons]
        omega

theorem dupInnerFold_lookup_of_no_match (fmtT : Int → String) (h : List Nat) :
    ∀ (hgs : List (List Nat × List (Path × FileEntry)))
      (acc : List (List Nat × DupGroup)),
      (∀ hg ∈ hgs, ¬(hg.1 = h ∧ 1 < hg.2.length)) →
      dictLookup (hgs.foldl
        (fun acc2 hg =>
          if 1 < hg.2.length then dictInsert acc2 hg.1 (mkDupGroup fmtT hg.2) else acc2)
        acc) h = dictLookup acc h := by
  intro hgs
  induction hgs with
  | nil => intro acc _; rfl
  | cons hg rest ih =>
      intro acc hno
      simp only [List.foldl_cons]
      have hno' : ∀ x ∈ rest, ¬(x.1 = h ∧ 1 < x.2.length) :=
        fun x hx => hno x (List.mem_cons_of_mem _ hx)
      by_cases hlen : 1 < hg.2.length
      · rw [if_pos hlen, ih _ hno']
        have hne : h ≠ hg.1 := fun he => hno hg (List.mem_cons_self _ _) ⟨he.symm, hlen⟩
        exact dictLookup_dictInsert_ne _ _ _ _ hne
      · rw [if_neg hlen]
        exact ih _ hno'

theorem dupInnerFold_lookup_of_match (fmtT : Int → String) (h : List Nat)
    (g : List (Path × FileEntry)) (hglen : 1 < g.length) :
    ∀ (hgs : List (List Nat × List (Path × FileEntry)))
      (acc : List (List Nat × DupGroup)),
      (hgs.map Prod.fst).Nodup → (h, g) ∈ hgs →
      dictLookup (hgs.foldl
        (fun acc2 hg =>
          if 1 < hg.2.length then dictInsert acc2 hg.1 (mkDupGroup fmtT hg.2) else acc2)
        acc) h = some (mkDupGroup fmtT g) := by
  intro hgs
  induction hgs with
  | nil => intro acc _ hm; simp at hm
  | cons hg rest ih =>
      intro acc hnodup hm
      rw [List.map_cons, List.nodup_cons] at hnodup
      simp only [List.foldl_cons]
      rcases List.mem_cons.mp hm with heq | hm'
      · obtain ⟨h1, g1⟩ := hg
        cases heq
        rw [if_pos hglen]
        have hkey : h ∉ rest.map Prod.fst := hnodup.1
        have hrest : ∀ x ∈ rest, ¬(x.1 = h ∧ 1 < x.2.length) := by
          intro x hx hcon
          apply hkey
          rw [← hcon.1]
          exact List.mem_map_of_mem Prod.fst hx
        rw [dupInnerFold_lookup_of_no_match fmtT h rest _ hrest]
        exact dictLookup_dictInsert_self _ _ _
      · by_cases hlen : 1 < hg.2.length
        · rw [if_pos hlen]
          exact ih _ hnodup.2 hm'
        · rw [if_neg hlen]
          exact ih _ hnodup.2 hm'

theorem dupOuterFold_lookup_of_no_match (fmtT : Int → String) (h : List Nat) :
    ∀ (sgs : List (Nat × List (Path × FileEntry))) (acc : List (List Nat × DupGroup)),
      (∀ sg ∈ sgs, sg.2.length < 2 ∨
        ∀ hg ∈ groupAll hashKey sg.2, ¬(hg.1 = h ∧ 1 < hg.2.length)) →
      dictLookup (sgs.foldl
        (fun acc sg =>
          if sg.2.length < 2 then acc
          else
            (groupAll hashKey sg.2).foldl
              (fun acc2 hg =>
                if 1 < hg.2.length then dictInsert acc2 hg.1 (mkDupGroup fmtT hg.2)
                else acc2)
              acc)
        acc) h = dictLookup acc h := by
  intro sgs
  induction sgs with
  | nil => intro acc _; rfl
  | cons sg rest ih =>
      intro acc hno
      simp only [List.foldl_cons]
      have hno' := fun x hx => hno x (List.mem_cons_of_mem _ hx)
      by_cases hl : sg.2.length < 2
      · rw [if_pos hl]
        exact ih _ hno'
      · rw [if_neg hl, ih _ hno']
        rcases hno sg (List.mem_cons_self _ _) with hc | hc
        · exact absurd hc hl
        · exact dupInnerFold_lookup_of_no_match fmtT h _ _ hc

theorem dupOuterFold_lookup_of_match (fmtT : Int → String) (h : List Nat)
    (g : List (Path × FileEntry)) (s0 : Nat) (bucket0 : List (Path × FileEntry))
    (hglen : 1 < g.length) (hbl : ¬ bucket0.length < 2)
    (hgmem : (h, g) ∈ groupAll hashKey bucket0) :
    ∀ (sgs : List (Nat × List (Path × FileEntry))) (acc : List (List Nat × DupGroup)),
      (sgs.map Prod.fst).Nodup → (s0, bucket0) ∈ sgs →
      (∀ sg ∈ sgs, sg.1 ≠ s0 → ∀ hg ∈ groupAll hashKey sg.2, hg.1 ≠ h) →
      dictLookup (sgs.foldl
        (fun acc sg =>
          if sg.2.length < 2 then acc
          else
            (groupAll hashKey sg.2).foldl
              (fun acc2 hg =>
                if 1 < hg.2.length then dictInsert acc2 hg.1 (mkDupGroup fmtT hg.2)
                else acc2)
              acc)
        acc) h = some (mkDupGroup fmtT g) := by
  intro sgs
  induction sgs with
  | nil => intro acc _ hm _; simp at hm
  | cons sg rest ih =>
      intro acc hnodup hm hside
      rw [List.map_cons, List.nodup_cons] at hnodup
      simp only [List.foldl_cons]
      rcases List.mem_cons.mp hm with heq | hm'
      · obtain ⟨s1, b1⟩ := sg
        cases heq
        rw [if_neg hbl]
        have hkey : s0 ∉ rest.map Prod.fst := hnodup.1
        have hrest : ∀ x ∈ rest, x.2.length < 2 ∨
            ∀ hg ∈ groupAll hashKey x.2, ¬(hg.1 = h ∧ 1 < hg.2.length) := by
          intro x hx
          right
          intro hg hhg hcon
          have hxne : x.1 ≠ s0 := by
            intro hx1
            apply hkey
            rw [← hx1]
            exact List.mem_map_of_mem Prod.fst hx
          exact hside x (List.mem_cons_of_mem _ hx) hxne hg hhg hcon.1
        rw [dupOuterFold_lookup_of_no_match fmtT h rest _ hrest]
        exact dupInnerFold_lookup_of_match fmtT h g hglen _ _
          (groupAll_keys_nodup _ _) hgmem
      · have hside' := fun x hx => hside x (List.mem_cons_of_mem _ hx)
        by_cases hl : sg.2.length < 2
        · rw [if_pos hl]
          exact ih _ hnodup.2 hm' hside'
        · rw [if_neg hl]
          exact ih _ hnodup.2 hm' hside'

/-- C2: two-phase duplicate detection.  For a ScanResult whose hashes are
content fingerprints — no entry carries the falsy empty hash, and equal
hashes imply equal sizes (true of every hash the scanner computes: the md5
input stream determines the byte length in full mode and embeds the length
in quick mode) — the duplicate_files dict has an entry for hash h exactly
when at least two files of positive size carry hash h, and that entry is the
group of precisely those files in scan order with
wasted_space = size * (count - 1).  Files of size zero, files whose size no
other file shares, and files without a hash can never contribute (the filter
on the right is empty or a singleton for them). -/
theorem duplicate_groups_characterization (fmtT : Int → String) (r : ScanResults)
    (ha : ∀ e ∈ r.files, e.2.hash ≠ some ([] : List Nat))
    (hb : ∀ e₁ ∈ r.files, ∀ e₂ ∈ r.files, ∀ h' : List Nat,
        e₁.2.hash = some h' → e₂.2.hash = some h' → e₁.2.size = e₂.2.size)
    (h : List Nat) :
    dictLookup (findDuplicateFiles fmtT r) h =
      if 2 ≤ (r.files.filter (fun e => decide (0 < e.2.size ∧ e.2.hash = some h))).length
      then some (mkDupGroup fmtT
        (r.files.filter (fun e => decide (0 < e.2.size ∧ e.2.hash = some h))))
      else none := by
  have hhk : ∀ e : Path × FileEntry, e ∈ r.files →
      ((hashKey e = some h) ↔ (e.2.hash = some h)) := by
    intro e he
    unfold hashKey
    rcases hh : e.2.hash with _ | h2
    · simp
    · by_cases hemp : h2.isEmpty = true
      · have h2nil : h2 = [] := by simpa using hemp
        subst h2nil
        exact absurd hh (ha e he)
      · show (if h2.isEmpty = true then none else some h2) = some h ↔ some h2 = some h
        rw [if_neg hemp]
  have hsz : ∀ (e : Path × FileEntry) (s : Nat),
      (sizeKey e = some s) ↔ (0 < e.2.size ∧ e.2.size = s) := by
    intro e s
    unfold sizeKey
    by_cases hp : 0 < e.2.size
    · rw [if_pos hp]
      simp [hp]
    · rw [if_neg hp]
      simp [hp]
  by_cases hc : 2 ≤
      (r.files.filter (fun e => decide (0 < e.2.size ∧ e.2.hash = some h))).length
  · rw [if_pos hc]
    have hne_nil :
        r.files.filter (fun e => decide (0 < e.2.size ∧ e.2.hash = some h)) ≠ [] := by
      intro h0
      rw [h0] at hc
      simp at hc
    obtain ⟨e0, rest0, hm0⟩ := List.exists_cons_of_ne_nil hne_nil
    have he0mem : e0 ∈ r.files.filter
        (fun e => decide (0 < e.2.size ∧ e.2.hash = some h)) := by
      rw [hm0]
      exact List.mem_cons_self _ _
    have he0 := List.mem_filter.mp he0mem
    have he0files := he0.1
    obtain ⟨hp0, hh0⟩ := of_decide_eq_true he0.2
    have hpt : ∀ e ∈ r.files,
        ((fun e => decide (hashKey e = some h)) e &&
          (fun e => decide (sizeKey e = some e0.2.size)) e)
          = (fun e => decide (0 < e.2.size ∧ e.2.hash = some h)) e := by
      intro e he
      show (decide (hashKey e = some h) && decide (sizeKey e = some e0.2.size))
        = decide (0 < e.2.size ∧ e.2.hash = some h)
      rw [← Bool.decide_and, decide_eq_decide, hhk e he, hsz e e0.2.size]
      constructor
      · rintro ⟨hh2, hs1, _⟩
        exact ⟨hs1, hh2⟩
      · rintro ⟨hp2, hh2⟩
        exact ⟨hh2, hp2, hb e he e0 he0files h hh2 hh0⟩
    have hmem_eq : r.files.filter (fun e => decide (0 < e.2.size ∧ e.2.hash = some h)) =
        (r.files.filter (fun e => decide (sizeKey e = some e0.2.size))).filter
          (fun e => decide (hashKey e = some h)) := by
      rw [List.filter_filter]
      exact (List.filter_congr hpt).symm
    have hbne : r.files.filter (fun e => decide (sizeKey e = some e0.2.size)) ≠ [] := by
      have hin : e0 ∈ r.files.filter (fun e => decide (sizeKey e = some e0.2.size)) := by
        rw [List.mem_filter]
        refine ⟨he0files, decide_eq_true ?_⟩
        rw [hsz]
        exact ⟨hp0, rfl⟩
      intro h0
      rw [h0] at hin
      simp at hin
    have hsg_mem :
        (e0.2.size, r.files.filter (fun e => decide (sizeKey e = some e0.2.size)))
          ∈ groupAll sizeKey r.files := by
      rw [groupAll_mem_iff]
      exact ⟨rfl, hbne⟩
    have hlen_le :
        (r.files.filter (fun e => decide (0 < e.2.size ∧ e.2.hash = some h))).length ≤
        (r.files.filter (fun e => decide (sizeKey e = some e0.2.size))).length := by
      rw [hmem_eq]
      exact List.length_filter_le _ _
    have hbl :
        ¬ (r.files.filter (fun e => decide (sizeKey e = some e0.2.size))).length < 2 := by
      omega
    have hhg_mem :
        (h, r.files.filter (fun e => decide (0 < e.2.size ∧ e.2.hash = some h)))
          ∈ groupAll hashKey
            (r.files.filter (fun e => decide (sizeKey e = some e0.2.size))) := by
      rw [groupAll_mem_iff]
      exact ⟨hmem_eq, hne_nil⟩
    have hside : ∀ sg ∈ groupAll sizeKey r.files, sg.1 ≠ e0.2.size →
        ∀ hg ∈ groupAll hashKey sg.2, hg.1 ≠ h := by
      intro sg hsg hne hg hhg hgh
      obtain ⟨s1, b1⟩ := sg
      obtain ⟨k1, g1⟩ := hg
      simp only at hne hgh
      obtain ⟨hb1_eq, _⟩ := (groupAll_mem_iff _ _ _ _).mp hsg
      obtain ⟨hg1_eq, hg1_ne⟩ := (groupAll_mem_iff _ _ _ _).mp hhg
      rw [hgh] at hg1_eq
      obtain ⟨x, hx⟩ := List.exists_mem_of_ne_nil _ hg1_ne
      rw [hg1_eq] at hx
      obtain ⟨hxb, hxh⟩ := List.mem_filter.mp hx
      rw [hb1_eq] at hxb
      obtain ⟨hxfiles, hxsz⟩ := List.mem_filter.mp hxb
      have hxh' : x.2.hash = some h := (hhk x hxfiles).mp (of_decide_eq_true hxh)
      have hxsz' := (hsz x s1).mp (of_decide_eq_true hxsz)
      apply hne
      rw [← hxsz'.2]
      exact hb x hxfiles e0 he0files h hxh' hh0
    exact dupOuterFold_lookup_of_match fmtT h _ e0.2.size _ (by omega) hbl hhg_mem
      (groupAll sizeKey r.files) [] (groupAll_keys_nodup _ _) hsg_mem hside
  · rw [if_neg hc]
    have hno : ∀ sg ∈ groupAll sizeKey r.files, sg.2.length < 2 ∨
        ∀ hg ∈ groupAll hashKey sg.2, ¬(hg.1 = h ∧ 1 < hg.2.length) := by
      intro sg hsg
      obtain ⟨s1, b1⟩ := sg
      by_cases hl : b1.length < 2
      · exact Or.inl hl
      right
      intro hg hhg hcon
      obtain ⟨k1, g1⟩ := hg
      simp only at hcon
      obtain ⟨hk1, hg1len⟩ := hcon
      obtain ⟨hb1_eq, _⟩ := (groupAll_mem_iff _ _ _ _).mp hsg
      obtain ⟨hg1_eq, _⟩ := (groupAll_mem_iff _ _ _ _).mp hhg
      rw [hk1] at hg1_eq
      have hcomp : g1 = r.files.filter
          (fun e => decide (hashKey e = some h) && decide (sizeKey e = some s1)) := by
        rw [hg1_eq, hb1_eq, List.filter_filter]
      have hmono : g1.length ≤
          (r.files.filter (fun e => decide (0 < e.2.size ∧ e.2.hash = some h))).length := by
        rw [hcomp]
        apply length_filter_mono
        intro a hafiles hpa
        rw [Bool.and_eq_true] at hpa
        apply decide_eq_true
        have h1 := (hhk a hafiles).mp (of_decide_eq_true hpa.1)
        have h2 := (hsz a s1).mp (of_decide_eq_true hpa.2)
        exact ⟨h2.1, h1⟩
      omega
    exact dupOuterFold_lookup_of_no_match fmtT h (groupAll sizeKey r.files) [] hno

/-- Witness for C2 at a concrete ScanResult: two files of size 2 share hash
[7], a third file of size 3 has hash [9]; the hypotheses hold, the theorem
applies, and the resulting duplicate group evaluates concretely. -/
theorem duplicate_groups_characterization_witness :
    (∀ e ∈ ({ root_path := ["r"]
              files := [(["r", "a"], ⟨2, 1, 1, 1, some [7]⟩),
                        (["r", "b"], ⟨2, 1, 1, 1, some [7]⟩),
                        (["r", "c"], ⟨3, 1, 1, 1, some [9]⟩)]
              dirs := [], total_size := 7, total_files := 3, total_dirs := 0
              errors := [] } : ScanResults).files,
        e.2.hash ≠ some ([] : List Nat)) ∧
    (dictLookup (findDuplicateFiles (fun _ => "t")
        { root_path := ["r"]
          files := [(["r", "a"], ⟨2, 1, 1, 1, some [7]⟩),
                    (["r", "b"], ⟨2, 1, 1, 1, some [7]⟩),
                    (["r", "c"], ⟨3, 1, 1, 1, some [9]⟩)]
          dirs := [], total_size := 7, total_files := 3, total_dirs := 0
          errors := [] }) [7] =
      if 2 ≤ (({ root_path := ["r"]
                 files := [(["r", "a"], ⟨2, 1, 1, 1, some [7]⟩),
                           (["r", "b"], ⟨2, 1, 1, 1, some [7]⟩),
                           (["r", "c"], ⟨3, 1, 1, 1, some [9]⟩)]
                 dirs := [], total_size := 7, total_files := 3, total_dirs := 0
                 errors := [] } : ScanResults).files.filter
            (fun e => decide (0 < e.2.size ∧ e.2.hash = some [7]))).length
      then some (mkDupGroup (fun _ => "t")
        (({ root_path := ["r"]
            files := [(["r", "a"], ⟨2, 1, 1, 1, some [7]⟩),
                      (["r", "b"], ⟨2, 1, 1, 1, some [7]⟩),
                      (["r", "c"], ⟨3, 1, 1, 1, some [9]⟩)]
            dirs := [], total_size := 7, total_files := 3, total_dirs := 0
            errors := [] } : ScanResults).files.filter
          (fun e => decide (0 < e.2.size ∧ e.2.hash = some [7]))))
      else none) ∧
    dictLookup (findDuplicateFiles (fun _ => "t")
        { root_path := ["r"]
          files := [(["r", "a"], ⟨2, 1, 1, 1, some [7]⟩),
                    (["r", "b"], ⟨2, 1, 1, 1, some [7]⟩),
                    (["r", "c"], ⟨3, 1, 1, 1, some [9]⟩)]
          dirs := [], total_size := 7, total_files := 3, total_dirs := 0
          errors := [] }) [7] =
      some { size := 2, count := 2, wasted_space := 2
             files := [{ path := ["r", "a"], mtime := 1, mtime_str := "t", atime := 1 },
                       { path := ["r", "b"], mtime := 1, mtime_str := "t", atime := 1 }] } := by
  refine ⟨by decide, ?_, by decide⟩
  exact duplicate_groups_characterization (fun _ => "t")
    { root_path := ["r"]
      files := [(["r", "a"], ⟨2, 1, 1, 1, some [7]⟩),
                (["r", "b"], ⟨2, 1, 1, 1, some [7]⟩),
                (["r", "c"], ⟨3, 1, 1, 1, some [9]⟩)]
      dirs := [], total_size := 7, total_files := 3, total_dirs := 0
      errors := [] }
    (by decide)
    (by
      intro e₁ h₁ e₂ h₂ h' he₁ he₂
      fin_cases h₁ <;> fin_cases h₂ <;> simp_all
      all_goals subst he₁
      all_goals simp at he₂)
    [7]

/-! ### C1 — scan completeness -/

theorem queueFiles_append (q₁ q₂ : List (Path × List (String × FSTree))) :
    queueFiles (q₁ ++ q₂) = queueFiles q₁ ++ queueFiles q₂ := by
  induction q₁ with
  | nil => simp [queueFiles]
  | cons t rest ih => simp [queueFiles, ih]

theorem drainFiles_counters (cfg : Config) :
    ∀ (facc : List (Path × FileMeta)) (st : ScanState),
      (drainFiles cfg facc st).file_count = st.file_count + facc.length ∧
      (drainFiles cfg facc st).total_size = st.total_size + filesTotalSize facc := by
  intro facc
  induction facc with
  | nil => intro st; simp [drainFiles, filesTotalSize]
  | cons t rest ih =>
      intro st
      obtain ⟨fp, m⟩ := t
      simp only [drainFiles]
      obtain ⟨ihc, ihs⟩ := ih (processFile cfg fp (.ok m true) st)
      constructor
      · rw [ihc]
        show st.file_count + 1 + rest.length = st.file_count + (rest.length + 1)
        omega
      · rw [ihs]
        show st.total_size + m.content.length + filesTotalSize rest = _
        simp only [filesTotalSize, List.map_cons, List.sum_cons]
        omega

theorem dictLookup_eq_none_of_not_mem_keys {κ β : Type} [DecidableEq κ]
    (m : List (κ × β)) (q : κ) (h : q ∉ m.map Prod.fst) :
    dictLookup m q = none := by
  rcases hl : dictLookup m q with _ | v
  · rfl
  · exfalso
    apply h
    rw [← dictLookup_isSome_iff_mem_keys, hl]
    rfl

theorem drainFiles_files (cfg : Config) :
    ∀ (facc : List (Path × FileMeta)) (st : ScanState),
      (st.files.map Prod.fst ++ facc.map Prod.fst).Nodup →
      (drainFiles cfg facc st).files =
        st.files ++ facc.map (fun t => (t.1, scannedFileEntry cfg t)) := by
  intro facc
  induction facc with
  | nil => intro st _; simp [drainFiles]
  | cons t rest ih =>
      intro st hnodup
      obtain ⟨fp, m⟩ := t
      simp only [drainFiles]
      have hdisj := List.nodup_append.mp hnodup
      have hfp_notin : fp ∉ st.files.map Prod.fst := by
        intro hin
        exact hdisj.2.2 hin
          (List.mem_map_of_mem Prod.fst (List.mem_cons_self (fp, m) rest))
      have hfp_none : dictLookup st.files fp = none :=
        dictLookup_eq_none_of_not_mem_keys _ _ hfp_notin
      have hins : (processFile cfg fp (.ok m true) st).files =
          st.files ++ [(fp, scannedFileEntry cfg (fp, m))] := by
        show dictInsert st.files fp _ = _
        rw [dictInsert_append_of_lookup_none _ _ _ hfp_none]
        rfl
      have hnodup' : ((processFile cfg fp (.ok m true) st).files.map Prod.fst ++
          rest.map Prod.fst).Nodup := by
        rw [hins]
        simp only [List.map_append, List.map_cons, List.map_nil]
        rw [List.append_assoc]
        simpa using hnodup
      rw [ih (processFile cfg fp (.ok m true) st) hnodup', hins]
      simp

theorem perm_shuffle_left {α : Type} (A F Q T : List α) (hT : T.Perm (F ++ Q)) :
    (A ++ T).Perm (F ++ (A ++ Q)) := by
  refine (hT.append_left A).trans ?_
  rw [← List.append_assoc, ← List.append_assoc]
  exact List.Perm.append_right Q List.perm_append_comm

theorem perm_shuffle_queue {α : Type} (acc F QR QD T : List α)
    (hT : T.Perm (F ++ QD)) :
    ((acc ++ F) ++ (QR ++ QD)).Perm (acc ++ (T ++ QR)) := by
  rw [List.append_assoc]
  refine List.Perm.append_left acc ?_
  have h1 : (F ++ (QR ++ QD)).Perm (F ++ (QD ++ QR)) :=
    List.Perm.append_left F List.perm_append_comm
  have h2 : F ++ (QD ++ QR) = (F ++ QD) ++ QR := (List.append_assoc F QD QR).symm
  have h3 : ((F ++ QD) ++ QR).Perm (T ++ QR) := List.Perm.append_right QR hT.symm
  exact (h2 ▸ h1).trans h3

theorem processItems_files_perm (cfg : Config)
    (hex : cfg.exclude_paths = []) (hh : cfg.skip_hidden = false)
    (dir_path : Path) (es : List (String × FSTree)) : ∀ st : ScanState,
    (treeFilesEntries dir_path es).Perm
      ((processItems cfg dir_path es st).2.2 ++
        queueFiles (processItems cfg dir_path es st).2.1) := by
  induction es with
  | nil =>
      intro st
      simp [processItems, treeFilesEntries, queueFiles]
  | cons e rest ih =>
      intro st
      obtain ⟨n, t⟩ := e
      have hx : is_path_excluded (dir_path ++ [n]) cfg.exclude_paths = false := by
        rw [hex]
        rfl
      simp only [processItems, hx, hh, Bool.false_and, Bool.false_eq_true, if_false]
      cases t with
      | file m =>
          simp only [treeFilesEntries]
          exact List.Perm.cons _ (ih _)
      | dir sub_entries =>
          simp only [treeFilesEntries, queueFiles]
          exact perm_shuffle_left _ _ _ _ (ih _)

theorem processDirectory_files_perm (cfg : Config)
    (hex : cfg.exclude_paths = []) (hh : cfg.skip_hidden = false)
    (dir_path : Path) (es : List (String × FSTree)) (st : ScanState) :
    (treeFilesEntries dir_path es).Perm
      ((processDirectory cfg dir_path (.listed es) st).2.2 ++
        queueFiles (processDirectory cfg dir_path (.listed es) st).2.1) := by
  have hx : is_path_excluded dir_path cfg.exclude_paths = false := by
    rw [hex]
    rfl
  simp only [processDirectory, hx, hh, Bool.false_and, Bool.false_eq_true, if_false]
  exact processItems_files_perm cfg hex hh dir_path es _

theorem drainDirs_full (cfg : Config)
    (hex : cfg.exclude_paths = []) (hh : cfg.skip_hidden = false) :
    ∀ (queue : List (Path × List (String × FSTree))) (facc : List (Path × FileMeta))
      (st : ScanState),
      (drainDirs cfg queue facc st).1.files = st.files ∧
      (drainDirs cfg queue facc st).1.file_count = st.file_count ∧
      (drainDirs cfg queue facc st).1.total_size = st.total_size ∧
      ((drainDirs cfg queue facc st).2).Perm (facc ++ queueFiles queue) := by
  intro queue facc st
  induction queue, facc, st using drainDirs.induct with
  | cfg => exact cfg
  | case1 facc st =>
      rw [drainDirs]
      exact ⟨rfl, rfl, rfl, by simp [queueFiles]⟩
  | case2 dir_path entries rest facc st r ih =>
      rw [drainDirs]
      obtain ⟨ihf, ihc, iht, ihp⟩ := ih
      have hagg := processDirectory_aggregates cfg dir_path entries st
      refine ⟨?_, ?_, ?_, ?_⟩
      · rw [ihf]
        exact hagg.1
      · rw [ihc]
        exact hagg.2.1
      · rw [iht]
        exact hagg.2.2.1
      · have hq := queueFiles_append rest
          (processDirectory cfg dir_path (.listed entries) st).2.1
        rw [hq] at ihp
        have hpd := processDirectory_files_perm cfg hex hh dir_path entries st
        simp only [queueFiles]
        exact ihp.trans (perm_shuffle_queue facc _ _ _ _ hpd)

theorem treeFilesEntries_prefix (p : Path) (es : List (String × FSTree)) :
    ∀ q ∈ (treeFilesEntries p es).map Prod.fst,
      ∃ nt ∈ es, q.take (p.length + 1) = p ++ [nt.1] := by
  induction p, es using treeFilesEntries.induct with
  | case1 p =>
      intro q hq
      simp [treeFilesEntries] at hq
  | case2 p n m rest ih =>
      intro q hq
      simp only [treeFilesEntries, List.map_cons] at hq
      rcases List.mem_cons.mp hq with rfl | hq'
      · refine ⟨(n, .file m), List.mem_cons_self _ _, ?_⟩
        rw [List.take_of_length_le (by simp)]
      · obtain ⟨nt, hnt, ht⟩ := ih q hq'
        exact ⟨nt, List.mem_cons_of_mem _ hnt, ht⟩
  | case3 p n sub rest ih1 ih2 =>
      intro q hq
      simp only [treeFilesEntries, List.map_append] at hq
      rcases List.mem_append.mp hq with hq' | hq'
      · refine ⟨(n, .dir sub), List.mem_cons_self _ _, ?_⟩
        obtain ⟨nt, _, htake⟩ := ih1 q hq'
        have hmin : p.length + 1 ≤ (p ++ [n]).length + 1 := by simp
        have h1 : q.take (p.length + 1) =
            (q.take ((p ++ [n]).length + 1)).take (p.length + 1) := by
          rw [List.take_take, Nat.min_eq_left hmin]
        rw [h1, htake]
        have hlen : (p ++ [n]).length = p.length + 1 := by simp
        rw [← hlen, List.take_left]
      · obtain ⟨nt, hnt, ht⟩ := ih2 q hq'
        exact ⟨nt, List.mem_cons_of_mem _ hnt, ht⟩

theorem treeFilesEntries_sub_take (p : Path) (n : String)
    (sub : List (String × FSTree)) :
    ∀ q ∈ (treeFilesEntries (p ++ [n]) sub).map Prod.fst,
      q.take (p.length + 1) = p ++ [n] := by
  intro q hq
  obtain ⟨nt, _, htake⟩ := treeFilesEntries_prefix (p ++ [n]) sub q hq
  have hmin : p.length + 1 ≤ (p ++ [n]).length + 1 := by simp
  have h1 : q.take (p.length + 1) =
      (q.take ((p ++ [n]).length + 1)).take (p.length + 1) := by
    rw [List.take_take, Nat.min_eq_left hmin]
  rw [h1, htake]
  have hlen : (p ++ [n]).length = p.length + 1 := by simp
  rw [← hlen, List.take_left]

theorem treeFilesEntries_paths_nodup : ∀ (p : Path) (es : List (String × FSTree)),
    entriesWfB es = true → ((treeFilesEntries p es).map Prod.fst).Nodup := by
  intro p es
  induction p, es using treeFilesEntries.induct with
  | case1 p =>
      intro _
      simp [treeFilesEntries]
  | case2 p n m rest ih =>
      intro hwf
      simp only [entriesWfB, Bool.and_eq_true, Bool.not_eq_true'] at hwf
      obtain ⟨⟨hany, _⟩, hwfrest⟩ := hwf
      simp only [treeFilesEntries, List.map_cons]
      rw [List.nodup_cons]
      refine ⟨?_, ih hwfrest⟩
      intro hin
      obtain ⟨nt, hnt, htake⟩ := treeFilesEntries_prefix p rest _ hin
      rw [List.take_of_length_le (by simp)] at htake
      have hn : nt.1 = n := by
        have hc := List.append_cancel_left htake
        simpa using hc.symm
      have hcontra : rest.any (fun e => e.1 == n) = true :=
        List.any_eq_true.mpr ⟨nt, hnt, by simp [hn]⟩
      rw [hany] at hcontra
      exact Bool.noConfusion hcontra
  | case3 p n sub rest ih1 ih2 =>
      intro hwf
      simp only [entriesWfB, Bool.and_eq_true, Bool.not_eq_true'] at hwf
      obtain ⟨⟨hany, hwfsub⟩, hwfrest⟩ := hwf
      simp only [treeFilesEntries, List.map_append]
      rw [List.nodup_append]
      refine ⟨ih1 (by simpa [FSTree.wfB] using hwfsub), ih2 hwfrest, ?_⟩
      intro q hq1 hq2
      have ht1 : q.take (p.length + 1) = p ++ [n] :=
        treeFilesEntries_sub_take p n sub q hq1
      obtain ⟨nt, hnt, ht2⟩ := treeFilesEntries_prefix p rest q hq2
      rw [ht1] at ht2
      have hn : nt.1 = n := by
        have hc := List.append_cancel_left ht2
        simpa using hc.symm
      have hcontra : rest.any (fun e => e.1 == n) = true :=
        List.any_eq_true.mpr ⟨nt, hnt, by simp [hn]⟩
      rw [hany] at hcontra
      exact Bool.noConfusion hcontra

/-- C1: completeness of a full scan.  For a well-formed tree (distinct names
per directory listing) scanned with no exclusions and hidden files included,
the blocking scan returns the finalized ScanResult, its total_files is the
number of regular files in the tree, its total_size is the sum of their
sizes, and total_size equals the sum of the size fields over the files map
(the run is error-free by construction: every listing, stat, and hash read
succeeds in the model). -/
theorem scan_completeness (cfg : Config) (root : Path)
    (es : List (String × FSTree))
    (hex : cfg.exclude_paths = []) (hh : cfg.skip_hidden = false)
    (hwf : entriesWfB es = true) :
    (DiskScanner.scan (initScanner cfg) root (.directory es)).2.1 =
      some (finalizeScanResults root (scanDirectory cfg root es emptyScanState)) ∧
    (finalizeScanResults root (scanDirectory cfg root es emptyScanState)).total_files =
      (treeFilesEntries root es).length ∧
    (finalizeScanResults root (scanDirectory cfg root es emptyScanState)).total_size =
      filesTotalSize (treeFilesEntries root es) ∧
    (finalizeScanResults root (scanDirectory cfg root es emptyScanState)).total_size =
      resultsFilesSize
        (finalizeScanResults root (scanDirectory cfg root es emptyScanState)).files := by
  rcases hdr : drainDirs cfg [(root, es)] []
      { emptyScanState with paths_to_process := emptyScanState.paths_to_process + 1 }
    with ⟨st1, facc⟩
  have hscan : scanDirectory cfg root es emptyScanState = drainFiles cfg facc st1 := by
    show drainFiles cfg
      (drainDirs cfg [(root, es)] []
        { emptyScanState with paths_to_process := emptyScanState.paths_to_process + 1 }).2
      (drainDirs cfg [(root, es)] []
        { emptyScanState with paths_to_process := emptyScanState.paths_to_process + 1 }).1
      = drainFiles cfg facc st1
    rw [hdr]
  have hdd := drainDirs_full cfg hex hh [(root, es)] []
    { emptyScanState with paths_to_process := emptyScanState.paths_to_process + 1 }
  rw [hdr] at hdd
  dsimp only at hdd
  obtain ⟨hf0, hc0, ht0, hperm⟩ := hdd
  have hqf : queueFiles [(root, es)] = treeFilesEntries root es := by
    simp [queueFiles]
  rw [hqf] at hperm
  simp only [List.nil_append] at hperm
  have hlen := hperm.length_eq
  have hnd_facc : (facc.map Prod.fst).Nodup :=
    ((hperm.map Prod.fst).nodup_iff).mpr (treeFilesEntries_paths_nodup root es hwf)
  have hcnt := drainFiles_counters cfg facc st1
  have hsum : filesTotalSize facc = filesTotalSize (treeFilesEntries root es) := by
    unfold filesTotalSize
    exact (hperm.map (fun e => e.2.content.length)).sum_eq
  have hnodup : (st1.files.map Prod.fst ++ facc.map Prod.fst).Nodup := by
    rw [hf0]
    show (facc.map Prod.fst).Nodup
    exact hnd_facc
  have hfl := drainFiles_files cfg facc st1 hnodup
  refine ⟨by simp [DiskScanner.scan, initScanner], ?_, ?_, ?_⟩
  · show (scanDirectory cfg root es emptyScanState).file_count =
      (treeFilesEntries root es).length
    rw [hscan, hcnt.1, hc0]
    show 0 + facc.length = (treeFilesEntries root es).length
    omega
  · show (scanDirectory cfg root es emptyScanState).total_size =
      filesTotalSize (treeFilesEntries root es)
    rw [hscan, hcnt.2, ht0]
    show 0 + filesTotalSize facc = filesTotalSize (treeFilesEntries root es)
    omega
  · show (scanDirectory cfg root es emptyScanState).total_size =
      resultsFilesSize (scanDirectory cfg root es emptyScanState).files
    rw [hscan, hcnt.2, ht0, hfl, hf0]
    show 0 + filesTotalSize facc =
      resultsFilesSize ([] ++ facc.map (fun t => (t.1, scannedFileEntry cfg t)))
    simp only [List.nil_append, Nat.zero_add, resultsFilesSize, filesTotalSize,
      List.map_map]
    rfl

/-- Witness for C1 at a concrete three-file tree (one file inside a
subdirectory, one hidden file included because skip_hidden is off):
N = 3 files of sizes 2, 1 and 3 bytes. -/
theorem scan_completeness_witness :
    entriesWfB
        [("a.txt", .file ⟨[1, 2], 1, 1, 1⟩),
         ("sub", .dir [("b.txt", .file ⟨[3], 1, 1, 1⟩)]),
         (".hidden", .file ⟨[9, 9, 9], 1, 1, 1⟩)] = true ∧
    (DiskScanner.scan (initScanner ⟨true, true, false, []⟩) ["r"]
        (.directory
          [("a.txt", .file ⟨[1, 2], 1, 1, 1⟩),
           ("sub", .dir [("b.txt", .file ⟨[3], 1, 1, 1⟩)]),
           (".hidden", .file ⟨[9, 9, 9], 1, 1, 1⟩)])).2.1 =
      some (finalizeScanResults ["r"]
        (scanDirectory ⟨true, true, false, []⟩ ["r"]
          [("a.txt", .file ⟨[1, 2], 1, 1, 1⟩),
           ("sub", .dir [("b.txt", .file ⟨[3], 1, 1, 1⟩)]),
           (".hidden", .file ⟨[9, 9, 9], 1, 1, 1⟩)]
          emptyScanState)) ∧
    (finalizeScanResults ["r"]
        (scanDirectory ⟨true, true, false, []⟩ ["r"]
          [("a.txt", .file ⟨[1, 2], 1, 1, 1⟩),
           ("sub", .dir [("b.txt", .file ⟨[3], 1, 1, 1⟩)]),
           (".hidden", .file ⟨[9, 9, 9], 1, 1, 1⟩)]
          emptyScanState)).total_files =
      (treeFilesEntries ["r"]
        [("a.txt", .file ⟨[1, 2], 1, 1, 1⟩),
         ("sub", .dir [("b.txt", .file ⟨[3], 1, 1, 1⟩)]),
         (".hidden", .file ⟨[9, 9, 9], 1, 1, 1⟩)]).length ∧
    (treeFilesEntries ["r"]
        [("a.txt", .file ⟨[1, 2], 1, 1, 1⟩),
         ("sub", .dir [("b.txt", .file ⟨[3], 1, 1, 1⟩)]),
         (".hidden", .file ⟨[9, 9, 9], 1, 1, 1⟩)]).length = 3 ∧
    filesTotalSize
      (treeFilesEntries ["r"]
        [("a.txt", .file ⟨[1, 2], 1, 1, 1⟩),
         ("sub", .dir [("b.txt", .file ⟨[3], 1, 1, 1⟩)]),
         (".hidden", .file ⟨[9, 9, 9], 1, 1, 1⟩)]) = 6 := by
  refine ⟨by decide, ?_, ?_, by simp [treeFilesEntries],
    by simp [treeFilesEntries, filesTotalSize]⟩
  · exact (scan_completeness ⟨true, true, false, []⟩ ["r"]
      [("a.txt", .file ⟨[1, 2], 1, 1, 1⟩),
       ("sub", .dir [("b.txt", .file ⟨[3], 1, 1, 1⟩)]),
       (".hidden", .file ⟨[9, 9, 9], 1, 1, 1⟩)] rfl rfl (by decide)).1
  · exact (scan_completeness ⟨true, true, false, []⟩ ["r"]
      [("a.txt", .file ⟨[1, 2], 1, 1, 1⟩),
       ("sub", .dir [("b.txt", .file ⟨[3], 1, 1, 1⟩)]),
       (".hidden", .file ⟨[9, 9, 9], 1, 1, 1⟩)] rfl rfl (by decide)).2.1

end StorageStats
